import Mathlib

/-!
Verification of the resume-parser-comparison repository.

The repository contains two resume-parsing pipelines over raw resume text:
a regex/heuristic line scanner (`regex_parser.py`, duplicated inline in
`app.py`) and an entity-based extractor (`fixed_pyresparser.py`), exposed by
the Flask app `web_app.py`.

Texts are modelled as `List Char` (Python `str` over ASCII content); lines,
keywords and extracted values likewise.  External collaborators (PDF/DOCX text
extraction, the spaCy entity recognizer / token matcher / sentence splitter,
Python set iteration order) are modelled as explicit inputs; everything the
repository itself computes is translated function by function.
-/

set_option maxRecDepth 10000

namespace Py

/-- Python whitespace characters recognised by str.strip / str.split / \s. -/
def isSpaceChar (c : Char) : Bool :=
  c = ' ' || c = '\t' || c = '\n' || c = '\x0d' || c = '\x0b' || c = '\x0c'

/-- ASCII digit test, Python str.isdigit on ASCII text. -/
def isDigitChar (c : Char) : Bool :=
  '0' ≤ c && c ≤ '9'

/-- ASCII uppercase letter. -/
def isUpperChar (c : Char) : Bool :=
  'A' ≤ c && c ≤ 'Z'

/-- ASCII lowercase letter. -/
def isLowerChar (c : Char) : Bool :=
  'a' ≤ c && c ≤ 'z'

/-- ASCII alphabetic letter, Python str.isalpha on ASCII text. -/
def isAlphaChar (c : Char) : Bool :=
  isUpperChar c || isLowerChar c

/-- Python str.lower on one ASCII character. -/
def lowerChar (c : Char) : Char :=
  if isUpperChar c then Char.ofNat (c.toNat + 32) else c

/-- Python str.lower. -/
def lower (s : List Char) : List Char :=
  s.map lowerChar

/-- Python str.strip (no argument): drop leading and trailing whitespace. -/
def strip (s : List Char) : List Char :=
  ((s.dropWhile isSpaceChar).reverse.dropWhile isSpaceChar).reverse

/-- Python str.split on a single newline character: text.split(chr(10)). -/
def splitLines (s : List Char) : List (List Char) :=
  match s with
  | [] => [[]]
  | c :: rest =>
    let tail := splitLines rest
    if c = '\n' then [] :: tail
    else match tail with
         | [] => [[c]]
         | l :: ls => (c :: l) :: ls

/-- Python str.split() with no argument: words separated by whitespace runs. -/
def splitWs (s : List Char) : List (List Char) :=
  match s with
  | [] => []
  | c :: rest =>
    if isSpaceChar c then splitWs rest
    else match splitWs rest with
         | [] => [[c]]
         | w :: ws =>
           match rest with
           | [] => [[c]]
           | d :: _ => if isSpaceChar d then [c] :: w :: ws else (c :: w) :: ws

/-- Python substring test: sub in s.  True when sub occurs contiguously in
s (the empty string occurs in every string). -/
def containsSub (sub : List Char) : List Char → Bool
  | [] => sub.isEmpty
  | c :: rest => List.isPrefixOf sub (c :: rest) || containsSub sub rest

/-- Python any char.isdigit() for char in s. -/
def hasDigit (s : List Char) : Bool :=
  s.any isDigitChar

/-- Python str.startswith on a tuple of strings: true when some element of
the tuple is a leading substring of s. -/
def startsWithAny (opts : List (List Char)) (s : List Char) : Bool :=
  opts.any (fun o => List.isPrefixOf o s)

/-- Python any keyword in s for keyword in keywords. -/
def containsAny (kws : List (List Char)) (s : List Char) : Bool :=
  kws.any (fun k => containsSub k s)

end Py

namespace RP

/-- skills_keywords of RegexResumeParser.extract_skills. -/
def skillsKeywords : List (List Char) :=
  ["skills".toList, "technical skills".toList, "technologies".toList,
   "programming languages".toList]

/-- closing tuple of RegexResumeParser.extract_skills. -/
def skillsClosing : List (List Char) :=
  ["experience".toList, "education".toList, "projects".toList,
   "work history".toList]

/-- education_keywords of RegexResumeParser.extract_education. -/
def eduKeywords : List (List Char) :=
  ["education".toList, "academic".toList, "university".toList,
   "college".toList, "degree".toList]

/-- closing tuple of RegexResumeParser.extract_education. -/
def eduClosing : List (List Char) :=
  ["experience".toList, "skills".toList, "projects".toList,
   "work history".toList]

/-- experience_keywords of RegexResumeParser.extract_experience. -/
def expKeywords : List (List Char) :=
  ["experience".toList, "work history".toList, "employment".toList,
   "professional experience".toList]

/-- closing tuple of RegexResumeParser.extract_experience. -/
def expClosing : List (List Char) :=
  ["education".toList, "skills".toList, "projects".toList]

/-- The shared for-loop body of RegexResumeParser.extract_skills /
extract_education / extract_experience (the three loops in regex_parser.py
are identical up to their keyword lists).  The boolean argument is the
capture flag; the result is the list of lines appended to the section before
the loop stops.  Each line is first lowercased and stripped; a line
containing any trigger keyword sets capture and is skipped (continue); else
while capturing a line starting with a closing keyword stops the loop
(break); else while capturing a non-blank line is appended stripped. -/
def sectionScan (triggers closers : List (List Char)) :
    Bool → List (List Char) → List (List Char)
  | _, [] => []
  | capture, line :: rest =>
    let lineLower := Py.lower (Py.strip line)
    if Py.containsAny triggers lineLower then
      sectionScan triggers closers true rest
    else if capture && Py.startsWithAny closers lineLower then
      []
    else if capture && !(Py.strip line).isEmpty then
      Py.strip line :: sectionScan triggers closers capture rest
    else
      sectionScan triggers closers capture rest

/-- RegexResumeParser.extract_skills before the final cap/sentinel step:
the skills_section list collected by the loop. -/
def skillsCollect (text : List Char) : List (List Char) :=
  sectionScan skillsKeywords skillsClosing false (Py.splitLines text)

/-- RegexResumeParser.extract_skills: section list capped at 5, None when
the collected list is empty. -/
def extract_skills (text : List Char) : Option (List (List Char)) :=
  let sec := skillsCollect text
  if sec.isEmpty then none else some (sec.take 5)

/-- RegexResumeParser.extract_education before the cap/sentinel step. -/
def eduCollect (text : List Char) : List (List Char) :=
  sectionScan eduKeywords eduClosing false (Py.splitLines text)

/-- RegexResumeParser.extract_education: capped at 3, None when empty. -/
def extract_education (text : List Char) : Option (List (List Char)) :=
  let sec := eduCollect text
  if sec.isEmpty then none else some (sec.take 3)

/-- RegexResumeParser.extract_experience before the cap/sentinel step. -/
def expCollect (text : List Char) : List (List Char) :=
  sectionScan expKeywords expClosing false (Py.splitLines text)

/-- RegexResumeParser.extract_experience: capped at 5, None when empty. -/
def extract_experience (text : List Char) : Option (List (List Char)) :=
  let sec := expCollect text
  if sec.isEmpty then none else some (sec.take 5)

/-- The per-line test of RegexResumeParser.extract_name: stripped line is
non-empty, has at most 4 whitespace-separated words, contains no at-sign and
no digit. -/
def nameLineOk (line : List Char) : Bool :=
  let l := Py.strip line
  !l.isEmpty && decide ((Py.splitWs l).length ≤ 4) && !l.contains '@' &&
    !Py.hasDigit l

/-- The for-loop of RegexResumeParser.extract_name over lines[:5]: first
qualifying stripped line, None when no line qualifies. -/
def nameScan : List (List Char) → Option (List Char)
  | [] => none
  | line :: rest =>
    if nameLineOk line then some (Py.strip line) else nameScan rest

/-- RegexResumeParser.extract_name. -/
def extract_name (text : List Char) : Option (List Char) :=
  nameScan ((Py.splitLines text).take 5)

end RP

namespace Re

/-- Python regex word character for the backslash-b anchor: [A-Za-z0-9_]
on ASCII text. -/
def wordChar (c : Char) : Bool :=
  Py.isAlphaChar c || Py.isDigitChar c || c = '_'

/-- Character class [A-Za-z0-9._%+-], the local part of the email pattern
used by extract_email. -/
def emailLocalChar (c : Char) : Bool :=
  Py.isAlphaChar c || Py.isDigitChar c || c = '.' || c = '_' || c = '%' ||
    c = '+' || c = '-'

/-- Character class [A-Za-z0-9.-], the domain part of the email pattern. -/
def emailDomainChar (c : Char) : Bool :=
  Py.isAlphaChar c || Py.isDigitChar c || c = '.' || c = '-'

/-- Character class [A-Z|a-z] of the email pattern: note that it literally
contains the pipe character. -/
def emailTldChar (c : Char) : Bool :=
  Py.isAlphaChar c || c = '|'

/-- Whether position i of s holds a regex word character (out of range
counts as non-word). -/
def wordAt (s : List Char) (i : Nat) : Bool :=
  match s[i]? with
  | some c => wordChar c
  | none => false

/-- The backslash-b anchor at position i (between characters i-1 and i):
exactly one of the two sides is a word character; the side beyond either
end of the string is non-word. -/
def boundaryAt (s : List Char) (i : Nat) : Bool :=
  (match i with
   | 0 => false
   | j + 1 => wordAt s j) != wordAt s i

/-- Length of the maximal run of elements satisfying p at the front. -/
def countWhile {α : Type} (p : α → Bool) (s : List α) : Nat :=
  (s.takeWhile p).length

/-- The list [n, n-1, ..., 1]: backtracking order of a greedy + or
bounded repetition that gives back one character at a time. -/
def natsDown : Nat → List Nat
  | 0 => []
  | n + 1 => (n + 1) :: natsDown n

/-- The tail of the email pattern, dot [A-Z|a-z]{2,} backslash-b, tried at
position u given a whole-match start at i: the tld repetition is greedy,
giving back characters from the maximal tld run down to two, until the
final word boundary fits; on success the whole match is the slice from i
to the end of the tld. -/
def emailTldSearch (s : List Char) (i u : Nat) : Option (List Char) :=
  ((natsDown (countWhile emailTldChar (s.drop u))).filter
      (fun t => 2 ≤ t)).findSome? (fun t =>
    if boundaryAt s (u + t) then some ((s.drop i).take (u + t - i))
    else none)

/-- The domain part of the email pattern, [A-Za-z0-9.-]+ followed by a
literal dot, tried at position j given a whole-match start at i: the
domain repetition is greedy, giving back characters from the maximal
domain run down to one, until the literal dot and the tld tail fit. -/
def emailDomSearch (s : List Char) (i j : Nat) : Option (List Char) :=
  (natsDown (countWhile emailDomainChar (s.drop j))).findSome? (fun k =>
    if s[j + k]? = some '.' then emailTldSearch s i (j + k + 1) else none)

/-- One attempt of the email pattern
backslash-b [A-Za-z0-9._%+-]+ at [A-Za-z0-9.-]+ dot [A-Z|a-z]{2,}
backslash-b at start position i of s, with Python re backtracking
semantics.  The local run is the maximal run of local characters: a
shorter run cannot be followed by the at sign (the next character would be
a local character, not an at sign), so no local backtracking arises. -/
def matchEmailFrom (s : List Char) (i : Nat) : Option (List Char) :=
  if boundaryAt s i then
    if 1 ≤ countWhile emailLocalChar (s.drop i) ∧
        s[i + countWhile emailLocalChar (s.drop i)]? = some '@' then
      emailDomSearch s i (i + countWhile emailLocalChar (s.drop i) + 1)
    else none
  else none

/-- re.findall of the email pattern, first element: the match from the
leftmost position where the pattern matches. -/
def findEmail (s : List Char) : Option (List Char) :=
  (List.range s.length).findSome? (fun i => matchEmailFrom s i)

/-- Character class [-.\s] used as separator in the phone pattern. -/
def phoneSepChar (c : Char) : Bool :=
  c = '-' || c = '.' || Py.isSpaceChar c

/-- Whether the n characters of s starting at position p are all ASCII
digits (and all exist). -/
def digitsAt (s : List Char) (p n : Nat) : Bool :=
  let seg := (s.drop p).take n
  seg.length = n && seg.all Py.isDigitChar

/-- Greedy optional single character: positions to continue from after an
optional character class, consuming first (Python re tries the longer
alternative before giving the character back). -/
def optChar (pred : Char → Bool) (s : List Char) (p : Nat) : List Nat :=
  match s[p]? with
  | some c => if pred c then [p + 1, p] else [p]
  | none => [p]

/-- One attempt of the phone pattern
( backslash-( ? d{3} backslash-) ? [-.\s]? d{3} [-.\s]? d{4} )
at start position i, with greedy optional elements. -/
def matchPhoneFrom (s : List Char) (i : Nat) : Option (List Char) :=
  (optChar (fun c => c = '(') s i).findSome? fun p1 =>
    if digitsAt s p1 3 then
      (optChar (fun c => c = ')') s (p1 + 3)).findSome? fun p2 =>
        (optChar phoneSepChar s p2).findSome? fun p3 =>
          if digitsAt s p3 3 then
            (optChar phoneSepChar s (p3 + 3)).findSome? fun p4 =>
              if digitsAt s p4 4 then
                some ((s.drop i).take (p4 + 4 - i))
              else none
          else none
    else none

/-- re.findall of the phone pattern, first element. -/
def findPhone (s : List Char) : Option (List Char) :=
  (List.range s.length).findSome? (fun i => matchPhoneFrom s i)

end Re

namespace RP

/-- RegexResumeParser.extract_email: first match of the email regex over
the whole text, None when there is none. -/
def extract_email (text : List Char) : Option (List Char) :=
  Re.findEmail text

/-- RegexResumeParser.extract_phone: first match of the phone regex over
the whole text, None when there is none. -/
def extract_phone (text : List Char) : Option (List Char) :=
  Re.findPhone text

end RP

/-- C8: the four phone formats of the spec each produce a (non-sentinel)
match, returned verbatim, and a bare 9-digit string produces no match, so
extract_phone returns the sentinel there. -/
theorem claim_C8 :
    RP.extract_phone "(123) 456-7890".toList =
      some "(123) 456-7890".toList ∧
    RP.extract_phone "123-456-7890".toList = some "123-456-7890".toList ∧
    RP.extract_phone "123.456.7890".toList = some "123.456.7890".toList ∧
    RP.extract_phone "123 456 7890".toList = some "123 456 7890".toList ∧
    RP.extract_phone "123456789".toList = none := by
  refine ⟨by decide, by decide, by decide, by decide, by decide⟩

/-- One scan step in the not-capturing state on a trigger-free line does
nothing. -/
theorem sectionScan_false_skip (t c : List (List Char)) (l : List Char)
    (ls : List (List Char))
    (h : Py.containsAny t (Py.lower (Py.strip l)) = false) :
    RP.sectionScan t c false (l :: ls) = RP.sectionScan t c false ls := by
  simp [RP.sectionScan, h]

/-- A trigger-free leading block is skipped entirely while not capturing. -/
theorem sectionScan_false_pre (t c : List (List Char))
    (pre xs : List (List Char))
    (h : ∀ l ∈ pre, Py.containsAny t (Py.lower (Py.strip l)) = false) :
    RP.sectionScan t c false (pre ++ xs) = RP.sectionScan t c false xs := by
  induction pre with
  | nil => rfl
  | cons l pre ih =>
    rw [List.cons_append,
      sectionScan_false_skip t c l (pre ++ xs) (h l (by simp))]
    exact ih fun a ha => h a (by simp [ha])

/-- While capturing, a block of non-blank lines that neither contain a
trigger keyword nor start with a closing keyword is appended stripped, in
order. -/
theorem sectionScan_true_clean (t c : List (List Char))
    (body xs : List (List Char))
    (h : ∀ l ∈ body,
      Py.containsAny t (Py.lower (Py.strip l)) = false ∧
      Py.startsWithAny c (Py.lower (Py.strip l)) = false ∧
      (Py.strip l).isEmpty = false) :
    RP.sectionScan t c true (body ++ xs) =
      body.map Py.strip ++ RP.sectionScan t c true xs := by
  induction body with
  | nil => rfl
  | cons l body ih =>
    obtain ⟨h1, h2, h3⟩ := h l (by simp)
    rw [List.cons_append]
    rw [show RP.sectionScan t c true (l :: (body ++ xs)) =
        Py.strip l :: RP.sectionScan t c true (body ++ xs) by
      simp [RP.sectionScan, h1, h2, h3]]
    rw [ih fun a ha => h a (by simp [ha])]
    rfl

/-- While capturing, a line starting with a closing keyword and containing
no trigger keyword stops the scan. -/
theorem sectionScan_true_closer (t c : List (List Char)) (l : List Char)
    (xs : List (List Char))
    (h1 : Py.containsAny t (Py.lower (Py.strip l)) = false)
    (h2 : Py.startsWithAny c (Py.lower (Py.strip l)) = true) :
    RP.sectionScan t c true (l :: xs) = [] := by
  simp [RP.sectionScan, h1, h2]

/-- C4: a line whose lowercased trimmed form contains a trigger keyword
anywhere as a substring opens the section (the scanner switches to
capturing and does not store that line), and while capturing a line closes
the section only when its lowercased trimmed form starts with a closing
keyword: a line not starting with any closing keyword lets the scan
continue (it is either appended stripped or skipped, never a stop). -/
theorem claim_C4 (t c : List (List Char)) (l : List Char)
    (rest : List (List Char)) :
    (Py.containsAny t (Py.lower (Py.strip l)) = true →
      RP.sectionScan t c false (l :: rest) = RP.sectionScan t c true rest) ∧
    (Py.startsWithAny c (Py.lower (Py.strip l)) = false →
      RP.sectionScan t c true (l :: rest) = RP.sectionScan t c true rest ∨
      RP.sectionScan t c true (l :: rest) =
        Py.strip l :: RP.sectionScan t c true rest) := by
  constructor
  · intro h
    simp [RP.sectionScan, h]
  · intro h
    by_cases htr : Py.containsAny t (Py.lower (Py.strip l)) = true
    · left
      simp [RP.sectionScan, htr]
    · rw [Bool.not_eq_true] at htr
      by_cases hb : (Py.strip l).isEmpty = true
      · left
        simp [RP.sectionScan, htr, h, hb]
      · right
        rw [Bool.not_eq_true] at hb
        simp [RP.sectionScan, htr, h, hb]

/-- Witness for C4 at the spec's own examples: the line My Skills: (trigger
keyword skills as an inner substring) opens the skills section, and the line
I have education experience does not close it while capturing. -/
theorem claim_C4_witness :
    (RP.sectionScan RP.skillsKeywords RP.skillsClosing false
        ("My Skills:".toList :: ["Python".toList]) =
      RP.sectionScan RP.skillsKeywords RP.skillsClosing true
        ["Python".toList]) ∧
    (RP.sectionScan RP.skillsKeywords RP.skillsClosing true
        ("I have education experience".toList :: ["Java".toList]) =
      RP.sectionScan RP.skillsKeywords RP.skillsClosing true
        ["Java".toList] ∨
     RP.sectionScan RP.skillsKeywords RP.skillsClosing true
        ("I have education experience".toList :: ["Java".toList]) =
      Py.strip "I have education experience".toList ::
        RP.sectionScan RP.skillsKeywords RP.skillsClosing true
          ["Java".toList]) :=
  ⟨(claim_C4 RP.skillsKeywords RP.skillsClosing "My Skills:".toList
      ["Python".toList]).1 (by decide),
   (claim_C4 RP.skillsKeywords RP.skillsClosing
      "I have education experience".toList ["Java".toList]).2 (by decide)⟩

/-- Counterexample to C3: in the text Skills: / Python / favorite skills
line / Java / Experience, the third line is non-blank, does not start with
any closing keyword, and appears after capturing started (Python, which
precedes it, is captured), yet it is not in the extracted section: the
scanner applies the trigger-substring test to every line, so a captured
line containing the word skills is skipped rather than appended. -/
theorem claim_C3_counterexample :
    (Py.strip "favorite skills line".toList).isEmpty = false ∧
    Py.startsWithAny RP.skillsClosing
      (Py.lower (Py.strip "favorite skills line".toList)) = false ∧
    RP.skillsCollect
        "Skills:\nPython\nfavorite skills line\nJava\nExperience".toList =
      ["Python".toList, "Java".toList] ∧
    Py.strip "favorite skills line".toList ∉
      ["Python".toList, "Java".toList] := by
  refine ⟨by decide, by decide, by decide, by decide⟩

/-- C3 amended: once capturing, a subsequent line (before any closing
header) is appended, trimmed, if and only if its trimmed form is non-empty
AND its lowercased trimmed form does not contain any trigger keyword as a
substring; lines containing a trigger keyword are skipped even while
capturing, because the code tests the trigger condition on every line, not
only while not capturing.  Over any run of lines none of which starts with
a closing keyword, the scan in the capturing state returns exactly the
stripped non-blank trigger-free lines, in order. -/
theorem claim_C3_amended (t c : List (List Char)) (ls : List (List Char))
    (h : ∀ l ∈ ls, Py.startsWithAny c (Py.lower (Py.strip l)) = false) :
    RP.sectionScan t c true ls =
      (ls.filter (fun l =>
        !Py.containsAny t (Py.lower (Py.strip l)) &&
        !(Py.strip l).isEmpty)).map Py.strip := by
  induction ls with
  | nil => rfl
  | cons l ls ih =>
    have hcl := h l (by simp)
    have ihe := ih fun a ha => h a (by simp [ha])
    by_cases htr : Py.containsAny t (Py.lower (Py.strip l)) = true
    · rw [show RP.sectionScan t c true (l :: ls) =
          RP.sectionScan t c true ls by simp [RP.sectionScan, htr]]
      rw [ihe, List.filter_cons]
      simp [htr]
    · rw [Bool.not_eq_true] at htr
      by_cases hb : (Py.strip l).isEmpty = true
      · rw [show RP.sectionScan t c true (l :: ls) =
            RP.sectionScan t c true ls by simp [RP.sectionScan, htr, hcl, hb]]
        rw [ihe, List.filter_cons]
        simp [htr, hb]
      · rw [Bool.not_eq_true] at hb
        rw [show RP.sectionScan t c true (l :: ls) =
            Py.strip l :: RP.sectionScan t c true ls by
          simp [RP.sectionScan, htr, hcl, hb]]
        rw [ihe, List.filter_cons]
        simp [htr, hb]

/-- Witness for the amended C3 on a concrete capturing run: the blank line
and the line containing the trigger word skills are dropped, the others are
kept stripped, in order. -/
theorem claim_C3_amended_witness :
    RP.sectionScan RP.skillsKeywords RP.skillsClosing true
      ["  Python ".toList, "".toList, "my skills rock".toList,
       "Java".toList] =
    (["  Python ".toList, "".toList, "my skills rock".toList,
      "Java".toList].filter (fun l =>
        !Py.containsAny RP.skillsKeywords (Py.lower (Py.strip l)) &&
        !(Py.strip l).isEmpty)).map Py.strip :=
  claim_C3_amended RP.skillsKeywords RP.skillsClosing _ (by decide)

/-- Counterexample to C5: in Skills / Python / skills galore / Education,
the trigger line is followed by N = 2 non-blank lines before the closing
header Education, so the claim predicts the first min(2,5) = 2 lines
(Python and skills galore) in order; the code returns only [Python],
because the second body line contains the trigger word skills and is
skipped by the every-line trigger test. -/
theorem claim_C5_counterexample :
    Py.splitLines "Skills\nPython\nskills galore\nEducation".toList =
      ["Skills".toList, "Python".toList, "skills galore".toList,
       "Education".toList] ∧
    (Py.strip "Python".toList).isEmpty = false ∧
    (Py.strip "skills galore".toList).isEmpty = false ∧
    Py.startsWithAny RP.skillsClosing
      (Py.lower (Py.strip "Education".toList)) = true ∧
    RP.extract_skills "Skills\nPython\nskills galore\nEducation".toList =
      some ["Python".toList] ∧
    some ["Python".toList] ≠
      some ["Python".toList, "skills galore".toList] := by
  refine ⟨by decide, by decide, by decide, by decide, by decide, by decide⟩

/-- C5 amended: for texts where a trigger line is followed by N non-blank
body lines and then a closing header, the regex pipeline returns exactly
the first min(N,5) body lines, trimmed, in order, PROVIDED the body lines
and the closing header contain no trigger keyword as a substring and the
body lines do not start with a closing keyword (a body line containing a
trigger keyword is skipped, and a closing header containing a trigger
keyword does not close the section). -/
theorem claim_C5_amended (text : List Char) (pre body rest : List (List Char))
    (trig closer : List Char)
    (hsplit : Py.splitLines text = pre ++ trig :: (body ++ closer :: rest))
    (hpre : ∀ l ∈ pre,
      Py.containsAny RP.skillsKeywords (Py.lower (Py.strip l)) = false)
    (htrig : Py.containsAny RP.skillsKeywords
      (Py.lower (Py.strip trig)) = true)
    (hbody : ∀ l ∈ body,
      Py.containsAny RP.skillsKeywords (Py.lower (Py.strip l)) = false ∧
      Py.startsWithAny RP.skillsClosing (Py.lower (Py.strip l)) = false ∧
      (Py.strip l).isEmpty = false)
    (hcl1 : Py.containsAny RP.skillsKeywords
      (Py.lower (Py.strip closer)) = false)
    (hcl2 : Py.startsWithAny RP.skillsClosing
      (Py.lower (Py.strip closer)) = true)
    (hne : body ≠ []) :
    RP.extract_skills text = some ((body.map Py.strip).take 5) ∧
    ((body.map Py.strip).take 5).length = min body.length 5 := by
  have hcollect : RP.skillsCollect text = body.map Py.strip := by
    rw [RP.skillsCollect, hsplit,
      sectionScan_false_pre _ _ pre _ hpre,
      show RP.sectionScan RP.skillsKeywords RP.skillsClosing false
          (trig :: (body ++ closer :: rest)) =
        RP.sectionScan RP.skillsKeywords RP.skillsClosing true
          (body ++ closer :: rest) by simp [RP.sectionScan, htrig],
      sectionScan_true_clean _ _ body _ hbody,
      sectionScan_true_closer _ _ closer rest hcl1 hcl2,
      List.append_nil]
  constructor
  · rw [RP.extract_skills]
    simp only [hcollect]
    rw [if_neg]
    simp only [List.isEmpty_eq_true, List.map_eq_nil_iff]
    exact hne
  · simp [List.length_take, List.length_map, Nat.min_comm]

/-- Witness for the amended C5: a skills section with 8 qualifying lines
yields exactly the first 5, in order. -/
theorem claim_C5_amended_witness :
    RP.extract_skills
      "Header\nSkills\nA1\nA2\nA3\nA4\nA5\nA6\nA7\nA8\nEducation\nMIT".toList =
      some (([ "A1".toList, "A2".toList, "A3".toList, "A4".toList,
        "A5".toList, "A6".toList, "A7".toList, "A8".toList].map
          Py.strip).take 5) ∧
    (([ "A1".toList, "A2".toList, "A3".toList, "A4".toList, "A5".toList,
        "A6".toList, "A7".toList, "A8".toList].map Py.strip).take 5).length
      = min 8 5 :=
  claim_C5_amended _ ["Header".toList]
    ["A1".toList, "A2".toList, "A3".toList, "A4".toList, "A5".toList,
     "A6".toList, "A7".toList, "A8".toList] ["MIT".toList]
    "Skills".toList "Education".toList
    (by decide) (by decide) (by decide) (by decide) (by decide) (by decide)
    (by decide)

/-- findSome? returning a value means some list element produced it. -/
theorem findSome_eq_some_exists {α β : Type} (f : α → Option β) :
    ∀ (l : List α) (b : β), l.findSome? f = some b → ∃ x ∈ l, f x = some b := by
  intro l
  induction l with
  | nil => intro b h; simp [List.findSome?] at h
  | cons a as ih =>
    intro b h
    rw [List.findSome?_cons] at h
    cases hfa : f a with
    | some b2 =>
      rw [hfa] at h
      exact ⟨a, by simp, by rw [hfa]; exact h⟩
    | none =>
      rw [hfa] at h
      obtain ⟨x, hx, hfx⟩ := ih b h
      exact ⟨x, by simp [hx], hfx⟩

/-- findSome? succeeds when some list element succeeds. -/
theorem findSome_isSome_of_mem {α β : Type} (f : α → Option β) {l : List α}
    {x : α} (hx : x ∈ l) (h : (f x).isSome = true) :
    (l.findSome? f).isSome = true := by
  induction l with
  | nil => cases hx
  | cons a as ih =>
    rw [List.findSome?_cons]
    cases hfa : f a with
    | some b => simp
    | none =>
      rcases List.mem_cons.mp hx with h1 | h2
      · subst h1; rw [hfa] at h; simp at h
      · exact ih h2

/-- Membership in the backtracking index list [n, ..., 1]. -/
theorem mem_natsDown (k : Nat) : ∀ n, k ∈ Re.natsDown n ↔ 1 ≤ k ∧ k ≤ n := by
  intro n
  induction n with
  | zero => simp [Re.natsDown]; omega
  | succ n ih =>
    simp only [Re.natsDown, List.mem_cons, ih]
    omega

/-- takeWhile of a block of satisfying elements followed by a failing one
is exactly the block. -/
theorem takeWhile_all_append {α : Type} (p : α → Bool) (L : List α) (a : α)
    (r : List α) (hL : ∀ x ∈ L, p x = true) (ha : p a = false) :
    (L ++ a :: r).takeWhile p = L := by
  induction L with
  | nil => simp [List.takeWhile_cons, ha]
  | cons c L ih =>
    have hc : p c = true := hL c (by simp)
    simp only [List.cons_append, List.takeWhile_cons, hc, if_true]
    rw [ih fun x hx => hL x (by simp [hx])]

/-- The front run never exceeds the list length. -/
theorem countWhile_le_length {α : Type} (p : α → Bool) (l : List α) :
    Re.countWhile p l ≤ l.length := by
  induction l with
  | nil => simp [Re.countWhile]
  | cons c l ih =>
    by_cases h : p c = true
    · simpa [Re.countWhile, List.takeWhile_cons, h] using ih
    · rw [Bool.not_eq_true] at h
      simp [Re.countWhile, List.takeWhile_cons, h]

/-- Any block inside the front run satisfies the predicate. -/
theorem take_all_of_le_countWhile {α : Type} (p : α → Bool) :
    ∀ (l : List α) (k : Nat), k ≤ Re.countWhile p l →
      (l.take k).all p = true := by
  intro l
  induction l with
  | nil =>
    intro k h
    have : k = 0 := by simpa [Re.countWhile] using h
    subst this
    simp
  | cons c l ih =>
    intro k h
    by_cases hpc : p c = true
    · cases k with
      | zero => simp
      | succ k =>
        have h' : k ≤ Re.countWhile p l := by
          simp [Re.countWhile, List.takeWhile_cons, hpc] at h
          simpa [Re.countWhile] using h
        simp [List.take_succ_cons, hpc, ih k h']
    · rw [Bool.not_eq_true] at hpc
      have : k = 0 := by
        simp [Re.countWhile, List.takeWhile_cons, hpc] at h
        omega
      subst this
      simp

/-- A block of satisfying elements at the front bounds the run length from
below. -/
theorem le_countWhile_of_take_all {α : Type} (p : α → Bool) :
    ∀ (l : List α) (k : Nat), k ≤ l.length → (l.take k).all p = true →
      k ≤ Re.countWhile p l := by
  intro l
  induction l with
  | nil =>
    intro k h _
    simp at h
    subst h
    exact Nat.zero_le _
  | cons c l ih =>
    intro k hlen hall
    cases k with
    | zero => exact Nat.zero_le _
    | succ k =>
      have hpc : p c = true := by
        simp [List.take_succ_cons] at hall
        exact hall.1
      have h2 : (l.take k).all p = true := by
        simp [List.take_succ_cons, hpc] at hall
        simp [List.all_eq_true]
        exact hall
      have hk := ih k (by simpa using hlen) h2
      simp only [Re.countWhile] at hk ⊢
      simp [List.takeWhile_cons, hpc]
      omega

/-- Peeling the element at a valid position off a drop. -/
theorem drop_eq_cons_of_getElem {α : Type} :
    ∀ (s : List α) (p : Nat) (a : α), s[p]? = some a →
      s.drop p = a :: s.drop (p + 1) := by
  intro s
  induction s with
  | nil => intro p a h; simp at h
  | cons c s ih =>
    intro p a h
    cases p with
    | zero =>
      simp at h
      subst h
      simp
    | succ p =>
      simp only [List.getElem?_cons_succ] at h
      simpa [List.drop_succ_cons] using ih p a h

/-- Claim-side email shape, following the claim's words: at position i of
s there is a substring local at domain dot tld where local has length
ll ≥ 1 over the email regex local character set, domain has length ld ≥ 1
over the domain character set, and the tld has length lt ≥ 2 and is
alphabetic. -/
def specEmailShapedAt (s : List Char) (i ll ld lt : Nat) : Prop :=
  1 ≤ ll ∧ 1 ≤ ld ∧ 2 ≤ lt ∧
  ((s.drop i).take ll).length = ll ∧
  ((s.drop i).take ll).all Re.emailLocalChar = true ∧
  s[i + ll]? = some '@' ∧
  ((s.drop (i + ll + 1)).take ld).all Re.emailDomainChar = true ∧
  s[i + ll + 1 + ld]? = some '.' ∧
  ((s.drop (i + ll + 1 + ld + 1)).take lt).length = lt ∧
  ((s.drop (i + ll + 1 + ld + 1)).take lt).all Py.isAlphaChar = true

instance (s : List Char) (i ll ld lt : Nat) :
    Decidable (specEmailShapedAt s i ll ld lt) := by
  unfold specEmailShapedAt
  infer_instance

/-- Declarative statement that the email regex (with its word-boundary
anchors and its literal pipe inside the tld class) matches the slice of
length ll + 1 + ld + 1 + lt at position i of s, and that m is that
slice. -/
def reEmailMatchAt (s : List Char) (i ll ld lt : Nat) (m : List Char) :
    Prop :=
  1 ≤ ll ∧ 1 ≤ ld ∧ 2 ≤ lt ∧
  Re.boundaryAt s i = true ∧
  ((s.drop i).take ll).length = ll ∧
  ((s.drop i).take ll).all Re.emailLocalChar = true ∧
  s[i + ll]? = some '@' ∧
  ((s.drop (i + ll + 1)).take ld).all Re.emailDomainChar = true ∧
  s[i + ll + 1 + ld]? = some '.' ∧
  ((s.drop (i + ll + 1 + ld + 1)).take lt).length = lt ∧
  ((s.drop (i + ll + 1 + ld + 1)).take lt).all Re.emailTldChar = true ∧
  Re.boundaryAt s (i + ll + 1 + ld + 1 + lt) = true ∧
  m = (s.drop i).take (ll + 1 + ld + 1 + lt)

/-- Unpacking a successful tld search. -/
theorem emailTldSearch_eq_some (s : List Char) (i u : Nat) (m : List Char)
    (h : Re.emailTldSearch s i u = some m) :
    ∃ t, 2 ≤ t ∧ t ≤ Re.countWhile Re.emailTldChar (s.drop u) ∧
      Re.boundaryAt s (u + t) = true ∧
      m = (s.drop i).take (u + t - i) := by
  rw [Re.emailTldSearch] at h
  obtain ⟨t, htm, hft⟩ := findSome_eq_some_exists _ _ _ h
  rw [List.mem_filter, mem_natsDown] at htm
  split at hft
  · exact ⟨t, by simpa using htm.2, htm.1.2, by assumption, by
      simpa using hft.symm⟩
  · exact absurd hft (by simp)

/-- A tld search succeeds when some giving-back length succeeds. -/
theorem emailTldSearch_isSome (s : List Char) (i u t : Nat)
    (h2 : 2 ≤ t) (hle : t ≤ Re.countWhile Re.emailTldChar (s.drop u))
    (hb : Re.boundaryAt s (u + t) = true) :
    (Re.emailTldSearch s i u).isSome = true := by
  rw [Re.emailTldSearch]
  apply findSome_isSome_of_mem _
    (x := t) (by
      rw [List.mem_filter, mem_natsDown]
      exact ⟨⟨by omega, hle⟩, by simpa using h2⟩)
  simp [hb]

/-- Unpacking a successful domain search. -/
theorem emailDomSearch_eq_some (s : List Char) (i j : Nat) (m : List Char)
    (h : Re.emailDomSearch s i j = some m) :
    ∃ k, 1 ≤ k ∧ k ≤ Re.countWhile Re.emailDomainChar (s.drop j) ∧
      s[j + k]? = some '.' ∧ Re.emailTldSearch s i (j + k + 1) = some m := by
  rw [Re.emailDomSearch] at h
  obtain ⟨k, hkm, hfk⟩ := findSome_eq_some_exists _ _ _ h
  rw [mem_natsDown] at hkm
  split at hfk
  · exact ⟨k, hkm.1, hkm.2, by assumption, hfk⟩
  · exact absurd hfk (by simp)

/-- A domain search succeeds when some giving-back length leads to a dot
and a successful tld tail. -/
theorem emailDomSearch_isSome (s : List Char) (i j k : Nat)
    (h1 : 1 ≤ k) (hle : k ≤ Re.countWhile Re.emailDomainChar (s.drop j))
    (hdot : s[j + k]? = some '.')
    (hts : (Re.emailTldSearch s i (j + k + 1)).isSome = true) :
    (Re.emailDomSearch s i j).isSome = true := by
  rw [Re.emailDomSearch]
  apply findSome_isSome_of_mem _ (x := k) ((mem_natsDown k _).mpr ⟨h1, hle⟩)
  simpa [hdot] using hts

/-- A word/non-word change makes a word boundary. -/
theorem boundary_of_word_nonword (s : List Char) (n : Nat) (h1 : 1 ≤ n)
    (hw : Re.wordAt s (n - 1) = true) (hnw : Re.wordAt s n = false) :
    Re.boundaryAt s n = true := by
  cases n with
  | zero => omega
  | succ j =>
    have hj : Re.wordAt s j = true := by simpa using hw
    simp [Re.boundaryAt, hj, hnw]

/-- Counterexample to C7: the text ..@b.com contains an email-shaped
substring in the claim's sense (local part .. over the local character
set, domain b, alphabetic tld com) starting at position 0, yet
extract_email returns the sentinel: the word-boundary anchor of the regex
cannot fire before a punctuation-only local part at the start of the
text, so no match is found anywhere. -/
theorem claim_C7_counterexample :
    specEmailShapedAt "..@b.com".toList 0 2 1 3 ∧
    RP.extract_email "..@b.com".toList = none := by
  refine ⟨by decide, by decide⟩

/-- C7 amended: extract_email returns the first match of the email regex
rather than the first email-shaped substring.  Soundness: any non-sentinel
result is a slice of the text on which the regex pattern matches, with
word boundaries at both ends and a tld over A-Z, a-z and the pipe
character.  A match can be missed when a word-boundary anchor fails, so
the positive direction holds under anchoring side conditions: if an
email-shaped substring in the claim's sense starts at a position holding a
word character, not preceded by a word character, and is not immediately
followed by a word character, then extract_email returns a (non-sentinel)
match. -/
theorem claim_C7_amended (s : List Char) :
    (∀ m, RP.extract_email s = some m →
      ∃ i ll ld lt, reEmailMatchAt s i ll ld lt m) ∧
    (∀ i ll ld lt, specEmailShapedAt s i ll ld lt →
      Re.wordAt s i = true →
      (i = 0 ∨ Re.wordAt s (i - 1) = false) →
      Re.wordAt s (i + ll + 1 + ld + 1 + lt) = false →
      (RP.extract_email s).isSome = true) := by
  constructor
  · -- soundness
    intro m hm
    rw [RP.extract_email, Re.findEmail] at hm
    obtain ⟨i, _, hi⟩ := findSome_eq_some_exists _ _ _ hm
    rw [Re.matchEmailFrom] at hi
    split at hi
    case isFalse => exact absurd hi (by simp)
    case isTrue hb =>
    split at hi
    case isFalse => exact absurd hi (by simp)
    case isTrue hc =>
    obtain ⟨k, hk1, hk2, hdot, hts⟩ := emailDomSearch_eq_some _ _ _ _ hi
    obtain ⟨t, ht2, ht3, htb, hm'⟩ := emailTldSearch_eq_some _ _ _ _ hts
    refine ⟨i, Re.countWhile Re.emailLocalChar (s.drop i), k, t,
      hc.1, hk1, ht2, hb, ?_, ?_, hc.2, ?_, hdot, ?_, ?_, ?_, ?_⟩
    · rw [List.length_take]
      exact min_eq_left (countWhile_le_length _ _)
    · exact take_all_of_le_countWhile _ _ _ (le_refl _)
    · exact take_all_of_le_countWhile _ _ _ hk2
    · rw [List.length_take]
      exact min_eq_left (le_trans ht3 (countWhile_le_length _ _))
    · exact take_all_of_le_countWhile _ _ _ ht3
    · exact htb
    · rw [hm']
      congr 1
      omega
  · -- positive direction under anchoring side conditions
    intro i ll ld lt hshape hw hprev hafter
    obtain ⟨hll, hld, hlt, hLlen, hLall, hat, hDall, hdot, hTlen, hTall⟩ :=
      hshape
    -- the maximal local run from i is exactly the local part
    have hdec : s.drop i =
        (s.drop i).take ll ++ '@' :: s.drop (i + ll + 1) := by
      conv_lhs => rw [← List.take_append_drop ll (s.drop i)]
      rw [List.drop_drop, drop_eq_cons_of_getElem s (i + ll) '@' hat]
    have hr1 : Re.countWhile Re.emailLocalChar (s.drop i) = ll := by
      rw [Re.countWhile, hdec,
        takeWhile_all_append _ _ _ _ (List.all_eq_true.mp hLall)
          (by decide), hLlen]
    -- start boundary
    have hbi : Re.boundaryAt s i = true := by
      rcases hprev with h0 | hpw
      · subst h0
        simp [Re.boundaryAt, hw]
      · cases i with
        | zero => simp [Re.boundaryAt, hw]
        | succ j =>
          have hj : Re.wordAt s j = false := by simpa using hpw
          simp [Re.boundaryAt, hw, hj]
    -- position of the at sign exists, so i is in range
    have hlen_at : i + ll < s.length := by
      obtain ⟨hlt', -⟩ := List.getElem?_eq_some.mp hat
      exact hlt'
    have hiran : i ∈ List.range s.length := by
      rw [List.mem_range]
      omega
    -- domain length is available
    have hlen_dot : i + ll + 1 + ld < s.length := by
      obtain ⟨hlt', -⟩ := List.getElem?_eq_some.mp hdot
      exact hlt'
    have hDle : ld ≤ Re.countWhile Re.emailDomainChar (s.drop (i + ll + 1)) := by
      apply le_countWhile_of_take_all _ _ _ _ hDall
      rw [List.length_drop]
      omega
    -- tld length is available
    have hTle : lt ≤ Re.countWhile Re.emailTldChar
        (s.drop (i + ll + 1 + ld + 1)) := by
      apply le_countWhile_of_take_all
      · rw [List.length_take] at hTlen
        exact min_eq_left_iff.mp hTlen
      · rw [List.all_eq_true] at hTall ⊢
        intro x hx
        have := hTall x hx
        simp [Re.emailTldChar, this]
    -- the last tld character is a word character
    have hword_last : Re.wordAt s (i + ll + 1 + ld + 1 + lt - 1) = true := by
      have hlt1 : lt - 1 < ((s.drop (i + ll + 1 + ld + 1)).take lt).length := by
        rw [hTlen]; omega
      cases hc : ((s.drop (i + ll + 1 + ld + 1)).take lt)[lt - 1]? with
      | none =>
        rw [List.getElem?_eq_none_iff] at hc
        omega
      | some c =>
        have hmem := List.getElem?_mem hc
        have halpha := List.all_eq_true.mp hTall _ hmem
        have hs1 : s[i + ll + 1 + ld + 1 + (lt - 1)]? = some c := by
          rw [← List.getElem?_drop, ← hc, List.getElem?_take,
            if_pos (by omega)]
        have harith : i + ll + 1 + ld + 1 + lt - 1 =
            i + ll + 1 + ld + 1 + (lt - 1) := by omega
        rw [Re.wordAt, harith, hs1]
        simp [Re.wordChar, halpha]
    -- final boundary
    have hbe : Re.boundaryAt s (i + ll + 1 + ld + 1 + lt) = true := by
      apply boundary_of_word_nonword _ _ (by omega) hword_last hafter
    -- assemble
    rw [RP.extract_email, Re.findEmail]
    apply findSome_isSome_of_mem _ hiran
    rw [Re.matchEmailFrom, hr1, if_pos hbi, if_pos ⟨hll, hat⟩]
    exact emailDomSearch_isSome s i (i + ll + 1) ld hld hDle hdot
      (emailTldSearch_isSome s i (i + ll + 1 + ld + 1) lt hlt hTle hbe)

/-- Witness for the amended C7 on a concrete text with a well-anchored
email: extract_email finds a match in see a@b.co now. -/
theorem claim_C7_amended_witness :
    (RP.extract_email "see a@b.co now".toList).isSome = true :=
  (claim_C7_amended "see a@b.co now".toList).2 4 1 1 2 (by decide)
    (by decide) (Or.inr (by decide)) (by decide)

namespace APP

/-- skills_keywords of app.py extract_skills. -/
def skillsKeywords : List (List Char) :=
  ["skills".toList, "technical skills".toList, "technologies".toList,
   "programming languages".toList]

/-- closing tuple of app.py extract_skills. -/
def skillsClosing : List (List Char) :=
  ["experience".toList, "education".toList, "projects".toList,
   "work history".toList]

/-- education_keywords of app.py extract_education. -/
def eduKeywords : List (List Char) :=
  ["education".toList, "academic".toList, "university".toList,
   "college".toList, "degree".toList]

/-- closing tuple of app.py extract_education. -/
def eduClosing : List (List Char) :=
  ["experience".toList, "skills".toList, "projects".toList,
   "work history".toList]

/-- experience_keywords of app.py extract_experience. -/
def expKeywords : List (List Char) :=
  ["experience".toList, "work history".toList, "employment".toList,
   "professional experience".toList]

/-- closing tuple of app.py extract_experience. -/
def expClosing : List (List Char) :=
  ["education".toList, "skills".toList, "projects".toList]

/-- The for-loop shared by the three section extractors of app.py, a
line-for-line duplicate of the loop in regex_parser.py. -/
def sectionScan (triggers closers : List (List Char)) :
    Bool → List (List Char) → List (List Char)
  | _, [] => []
  | capture, line :: rest =>
    let lineLower := Py.lower (Py.strip line)
    if Py.containsAny triggers lineLower then
      sectionScan triggers closers true rest
    else if capture && Py.startsWithAny closers lineLower then
      []
    else if capture && !(Py.strip line).isEmpty then
      Py.strip line :: sectionScan triggers closers capture rest
    else
      sectionScan triggers closers capture rest

/-- app.py extract_skills: section list capped at 5, the sentinel list
[Not found] when the collected list is empty. -/
def extract_skills (text : List Char) : List (List Char) :=
  let sec := sectionScan skillsKeywords skillsClosing false
    (Py.splitLines text)
  if sec.isEmpty then ["Not found".toList] else sec.take 5

/-- app.py extract_education: capped at 3, sentinel list when empty. -/
def extract_education (text : List Char) : List (List Char) :=
  let sec := sectionScan eduKeywords eduClosing false (Py.splitLines text)
  if sec.isEmpty then ["Not found".toList] else sec.take 3

/-- app.py extract_experience: capped at 5, sentinel list when empty. -/
def extract_experience (text : List Char) : List (List Char) :=
  let sec := sectionScan expKeywords expClosing false (Py.splitLines text)
  if sec.isEmpty then ["Not found".toList] else sec.take 5

/-- The per-line test of app.py extract_name, a duplicate of the one in
regex_parser.py. -/
def nameLineOk (line : List Char) : Bool :=
  let l := Py.strip line
  !l.isEmpty && decide ((Py.splitWs l).length ≤ 4) && !l.contains '@' &&
    !Py.hasDigit l

/-- The for-loop of app.py extract_name over lines[:5], returning the
string sentinel Not found when no line qualifies. -/
def nameScan : List (List Char) → List Char
  | [] => "Not found".toList
  | line :: rest =>
    if nameLineOk line then Py.strip line else nameScan rest

/-- app.py extract_name. -/
def extract_name (text : List Char) : List Char :=
  nameScan ((Py.splitLines text).take 5)

/-- app.py extract_email: same regex and same re.findall call as
regex_parser.py, with the string sentinel. -/
def extract_email (text : List Char) : List Char :=
  match Re.findEmail text with
  | some e => e
  | none => "Not found".toList

/-- app.py extract_phone: same regex and same re.findall call as
regex_parser.py, with the string sentinel. -/
def extract_phone (text : List Char) : List Char :=
  match Re.findPhone text with
  | some p => p
  | none => "Not found".toList

end APP

/-- The duplicated section loops of app.py and regex_parser.py agree in
every state on every line list. -/
theorem sectionScan_app_eq_rp (t c : List (List Char)) :
    ∀ (ls : List (List Char)) (b : Bool),
      APP.sectionScan t c b ls = RP.sectionScan t c b ls := by
  intro ls
  induction ls with
  | nil => intro b; rfl
  | cons l rest ih =>
    intro b
    by_cases h1 : Py.containsAny t (Py.lower (Py.strip l)) = true
    · simp [APP.sectionScan, RP.sectionScan, h1, ih]
    · rw [Bool.not_eq_true] at h1
      by_cases h2 : Py.startsWithAny c (Py.lower (Py.strip l)) = true
      · cases b
        · simp [APP.sectionScan, RP.sectionScan, h1, h2, ih]
        · simp [APP.sectionScan, RP.sectionScan, h1, h2]
      · rw [Bool.not_eq_true] at h2
        by_cases h3 : (Py.strip l).isEmpty = true
        · simp [APP.sectionScan, RP.sectionScan, h1, h2, h3, ih]
        · rw [Bool.not_eq_true] at h3
          cases b
          · simp [APP.sectionScan, RP.sectionScan, h1, h2, h3, ih]
          · simp [APP.sectionScan, RP.sectionScan, h1, h2, h3, ih]

/-- The duplicated name loops agree up to the sentinel. -/
theorem nameScan_app_eq_rp :
    ∀ ls : List (List Char),
      APP.nameScan ls = (RP.nameScan ls).getD "Not found".toList := by
  intro ls
  induction ls with
  | nil => rfl
  | cons l rest ih =>
    by_cases h : RP.nameLineOk l = true
    · have h' : APP.nameLineOk l = true := h
      simp [APP.nameScan, RP.nameScan, h, h']
    · rw [Bool.not_eq_true] at h
      have h' : APP.nameLineOk l = false := h
      simp [APP.nameScan, RP.nameScan, h, h', ih]

/-- C10: on every text, each app.py field extractor computes the same
value as the corresponding RegexResumeParser extractor in regex_parser.py,
up to the not-found sentinel: app.py returns the literal string Not found
(or the list [Not found]) exactly where RegexResumeParser returns None,
and identical values elsewhere (identical line sequences and caps for the
section extractors, identical strings for name, email and phone). -/
theorem claim_C10 (text : List Char) :
    APP.extract_name text = (RP.extract_name text).getD "Not found".toList ∧
    APP.extract_email text =
      (RP.extract_email text).getD "Not found".toList ∧
    APP.extract_phone text =
      (RP.extract_phone text).getD "Not found".toList ∧
    APP.extract_skills text =
      (RP.extract_skills text).getD ["Not found".toList] ∧
    APP.extract_education text =
      (RP.extract_education text).getD ["Not found".toList] ∧
    APP.extract_experience text =
      (RP.extract_experience text).getD ["Not found".toList] := by
  refine ⟨?_, ?_, ?_, ?_, ?_, ?_⟩
  · rw [APP.extract_name, RP.extract_name, nameScan_app_eq_rp]
  · rw [APP.extract_email, RP.extract_email]
    cases h : Re.findEmail text <;> simp [h]
  · rw [APP.extract_phone, RP.extract_phone]
    cases h : Re.findPhone text <;> simp [h]
  · rw [APP.extract_skills, RP.extract_skills]
    rw [show APP.skillsKeywords = RP.skillsKeywords from rfl,
      show APP.skillsClosing = RP.skillsClosing from rfl,
      sectionScan_app_eq_rp]
    rw [RP.skillsCollect]
    cases h : (RP.sectionScan RP.skillsKeywords RP.skillsClosing false
      (Py.splitLines text)).isEmpty <;> simp [h]
  · rw [APP.extract_education, RP.extract_education]
    rw [show APP.eduKeywords = RP.eduKeywords from rfl,
      show APP.eduClosing = RP.eduClosing from rfl,
      sectionScan_app_eq_rp]
    rw [RP.eduCollect]
    cases h : (RP.sectionScan RP.eduKeywords RP.eduClosing false
      (Py.splitLines text)).isEmpty <;> simp [h]
  · rw [APP.extract_experience, RP.extract_experience]
    rw [show APP.expKeywords = RP.expKeywords from rfl,
      show APP.expClosing = RP.expClosing from rfl,
      sectionScan_app_eq_rp]
    rw [RP.expCollect]
    cases h : (RP.sectionScan RP.expKeywords RP.expClosing false
      (Py.splitLines text)).isEmpty <;> simp [h]

namespace FP

/-- ASCII uppercase conversion of one character. -/
def upperChar (c : Char) : Char :=
  if Py.isLowerChar c then Char.ofNat (c.toNat - 32) else c

/-- Python str.isupper on ASCII text: at least one cased character and no
lowercase character. -/
def isUpperStr (s : List Char) : Bool :=
  s.any Py.isAlphaChar && s.all (fun c => !Py.isLowerChar c)

/-- Worker for Python str.istitle: tracks whether the previous character
was cased and whether any cased character has been seen. -/
def isTitleGo : List Char → Bool → Bool → Bool
  | [], _, found => found
  | c :: rest, prevCased, found =>
    if Py.isUpperChar c then
      !prevCased && isTitleGo rest true true
    else if Py.isLowerChar c then
      prevCased && isTitleGo rest true true
    else
      isTitleGo rest false found

/-- Python str.istitle on ASCII text. -/
def isTitleStr (s : List Char) : Bool :=
  isTitleGo s false false

/-- Python str.isalpha on ASCII text: non-empty and all alphabetic. -/
def isAlphaStr (s : List Char) : Bool :=
  !s.isEmpty && s.all Py.isAlphaChar

/-- First character is an ASCII uppercase letter (word[0].isupper() for a
non-empty word). -/
def headIsUpper : List Char → Bool
  | [] => false
  | c :: _ => Py.isUpperChar c

/-- Worker for Python str.title: a letter is uppercased when the previous
character was not a letter, lowercased otherwise. -/
def titleGo : List Char → Bool → List Char
  | [], _ => []
  | c :: rest, prevAlpha =>
    if Py.isAlphaChar c then
      (if prevAlpha then Py.lowerChar c else upperChar c) :: titleGo rest true
    else
      c :: titleGo rest false

/-- Python str.title on ASCII text. -/
def pyTitle (s : List Char) : List Char :=
  titleGo s false

/-- Address-noise words rejected by tier 1 of
FixedResumeParser._extract_name_with_spacy. -/
def noiseWords1 : List (List Char) :=
  ["street".toList, "road".toList, "avenue".toList, "drive".toList,
   "lane".toList, "heritage".toList, "apartment".toList, "building".toList]

/-- Noise words rejected by the PERSON-entity filter of tier 2. -/
def noiseWords2 : List (List Char) :=
  ["heritage".toList, "society".toList, "apartment".toList,
   "building".toList, "street".toList, "road".toList]

/-- The body of the tier-1 loop of _extract_name_with_spacy for one line:
skip empty lines and lines containing an at sign or the words phone or
email; accept a line of 2 to 4 words with no digits and no address-noise
word when it is fully uppercase, title case, or has every alphabetic word
capitalized. -/
def tier1LineResult (line : List Char) : Option (List Char) :=
  let l := Py.strip line
  if l.isEmpty || l.contains '@' ||
      Py.containsSub "phone".toList (Py.lower l) ||
      Py.containsSub "email".toList (Py.lower l) then
    none
  else
    let words := Py.splitWs l
    if (decide (2 ≤ words.length) && decide (words.length ≤ 4)) &&
        !Py.hasDigit l &&
        !(words.any (fun w => noiseWords1.contains (Py.lower w))) then
      if isUpperStr l || isTitleStr l ||
          words.all (fun w => !isAlphaStr w || headIsUpper w) then
        some l
      else
        none
    else
      none

/-- Tier 1 of _extract_name_with_spacy: first accepted line among the
lines handed to it (the caller passes the first 8 lines). -/
def tier1Scan : List (List Char) → Option (List Char)
  | [] => none
  | line :: rest =>
    match tier1LineResult line with
    | some n => some n
    | none => tier1Scan rest

/-- Tier 2 of _extract_name_with_spacy over the PERSON entities returned
by the external recognizer on the first 2000 characters, given as pairs of
entity text and start offset: strip each entity text, keep those with 2 to
4 words, no noise word and no digit, sort by start offset ascending
(Python list.sort is stable; so is mergeSort) and return the earliest. -/
def tier2Pick (persons : List (List Char × Nat)) : Option (List Char) :=
  let cands := (persons.map (fun p => (Py.strip p.1, p.2))).filter
    (fun p =>
      let words := Py.splitWs p.1
      (decide (2 ≤ words.length) && decide (words.length ≤ 4)) &&
      !(words.any (fun w => noiseWords2.contains (Py.lower w))) &&
      !Py.hasDigit p.1)
  match cands.mergeSort (fun a b => decide (a.2 ≤ b.2)) with
  | [] => none
  | c :: _ => some c.1

/-- The body of the tier-3 fallback loop for one line: 2 to 4 words, no at
sign, no digit, every alphabetic word capitalized. -/
def tier3LineResult (line : List Char) : Option (List Char) :=
  let l := Py.strip line
  if !l.isEmpty &&
      (decide (2 ≤ (Py.splitWs l).length) &&
        decide ((Py.splitWs l).length ≤ 4)) &&
      !l.contains '@' && !Py.hasDigit l &&
      (Py.splitWs l).all (fun w => !isAlphaStr w || headIsUpper w) then
    some l
  else
    none

/-- Tier 3 of _extract_name_with_spacy over the lines handed to it (the
caller passes the first 5 lines). -/
def tier3Scan : List (List Char) → Option (List Char)
  | [] => none
  | line :: rest =>
    match tier3LineResult line with
    | some n => some n
    | none => tier3Scan rest

/-- FixedResumeParser._extract_name_with_spacy: three-tier fallback. -/
def extractNameSpacy (persons : List (List Char × Nat))
    (text : List Char) : Option (List Char) :=
  match tier1Scan ((Py.splitLines text).take 8) with
  | some n => some n
  | none =>
    match tier2Pick persons with
    | some n => some n
    | none => tier3Scan ((Py.splitLines text).take 5)

/-- FixedResumeParser._extract_email_with_spacy: the external pattern
matcher result first, else the same email regex as the regex pipeline. -/
def extractEmailSpacy (emailMatch : Option (List Char))
    (text : List Char) : Option (List Char) :=
  match emailMatch with
  | some e => some e
  | none => Re.findEmail text

/-- One attempt of the international phone fallback pattern
backslash-+ d{1,3} [-.\s]? d{3} [-.\s]? d{3} [-.\s]? d{4}
at position i, with the country-code repetition greedy from 3 down to 1. -/
def matchIntlPhoneFrom (s : List Char) (i : Nat) : Option (List Char) :=
  if s[i]? = some '+' then
    ([3, 2, 1] : List Nat).findSome? fun d =>
      if Re.digitsAt s (i + 1) d then
        (Re.optChar Re.phoneSepChar s (i + 1 + d)).findSome? fun p1 =>
          if Re.digitsAt s p1 3 then
            (Re.optChar Re.phoneSepChar s (p1 + 3)).findSome? fun p2 =>
              if Re.digitsAt s p2 3 then
                (Re.optChar Re.phoneSepChar s (p2 + 3)).findSome? fun p3 =>
                  if Re.digitsAt s p3 4 then
                    some ((s.drop i).take (p3 + 4 - i))
                  else none
              else none
          else none
      else none
  else none

/-- re.findall of the international phone pattern, first element. -/
def findIntlPhone (s : List Char) : Option (List Char) :=
  (List.range s.length).findSome? (fun i => matchIntlPhoneFrom s i)

/-- FixedResumeParser._extract_phone_with_spacy: the external pattern
matcher result first, else the domestic regex (same as the regex
pipeline), else the international regex. -/
def extractPhoneSpacy (phoneMatch : Option (List Char))
    (text : List Char) : Option (List Char) :=
  match phoneMatch with
  | some p => some p
  | none =>
    match Re.findPhone text with
    | some p => some p
    | none => findIntlPhone text

/-- Keywords marking an ORG entity as educational. -/
def eduOrgKeywords : List (List Char) :=
  ["university".toList, "college".toList, "institute".toList,
   "school".toList]

/-- The education list built by _extract_education_with_spacy before
dedup: ORG entities containing an educational keyword, then the DEGREE
pattern matches, in that order. -/
def educationList (orgs degrees : List (List Char)) : List (List Char) :=
  orgs.filter (fun o => Py.containsAny eduOrgKeywords (Py.lower o)) ++
    degrees

/-- FixedResumeParser._extract_education_with_spacy: list(set(...)) of the
education list, None when empty; the set listing order is an input
(Python set iteration order). -/
def extractEducationSpacy
    (setList : List (List Char) → List (List Char))
    (orgs degrees : List (List Char)) : Option (List (List Char)) :=
  let edu := educationList orgs degrees
  if edu.isEmpty then none else some (setList edu)

/-- The default skills database of _load_skills_database. -/
def skillsDB : List (List Char) :=
  ["python".toList, "java".toList, "javascript".toList, "react".toList,
   "angular".toList, "vue".toList, "node.js".toList, "django".toList,
   "flask".toList, "spring".toList, "express".toList, "docker".toList,
   "kubernetes".toList, "aws".toList, "azure".toList, "gcp".toList,
   "mongodb".toList, "postgresql".toList, "mysql".toList, "redis".toList,
   "machine learning".toList, "deep learning".toList,
   "data science".toList, "ai".toList, "ml".toList, "tensorflow".toList,
   "pytorch".toList, "scikit-learn".toList, "pandas".toList,
   "numpy".toList, "git".toList, "jenkins".toList, "ci/cd".toList,
   "agile".toList, "scrum".toList, "rest api".toList, "graphql".toList]

/-- Database hits of _extract_skills_with_spacy: database entries found as
substrings of the lowercased text, title-cased on output. -/
def dbSkills (text : List Char) : List (List Char) :=
  (skillsDB.filter (fun sk => Py.containsSub sk (Py.lower text))).map
    pyTitle

/-- Tech indicator substrings for the PRODUCT/ORG entity filter. -/
def techWords : List (List Char) :=
  ["js".toList, "sql".toList, "api".toList, "framework".toList,
   "library".toList]

/-- PRODUCT/ORG entities of at most two words containing a tech indicator
substring. -/
def nerTechSkills (ents : List (List Char)) : List (List Char) :=
  ents.filter (fun e =>
    decide ((Py.splitWs e).length ≤ 2) &&
      Py.containsAny techWords (Py.lower e))

end FP

/-- External inputs of one FixedResumeParser extraction: the spaCy PERSON
entities with start offsets (on the first 2000 characters), the EMAIL and
PHONE pattern-matcher results, the ORG entities, the DEGREE and SKILL
pattern matches, the PRODUCT/ORG entities, the sentence list, and the
iteration order Python uses when listing a set (a function producing the
deduplicated listing of a collected list). -/
structure SpacyEnv where
  persons : List (List Char × Nat)
  emailMatch : Option (List Char)
  phoneMatch : Option (List Char)
  orgEnts : List (List Char)
  degreeMatches : List (List Char)
  skillMatches : List (List Char)
  prodOrgEnts : List (List Char)
  sents : List (List Char)
  setList : List (List Char) → List (List Char)

namespace FP

/-- The found_skills list of _extract_skills_with_spacy: database hits,
then SKILL pattern matches, then filtered PRODUCT/ORG entities. -/
def skillsFound (env : SpacyEnv) (text : List Char) : List (List Char) :=
  dbSkills text ++ env.skillMatches ++ nerTechSkills env.prodOrgEnts

/-- FixedResumeParser._extract_skills_with_spacy: list(set(found))[:10],
None when nothing was found. -/
def extractSkillsSpacy (env : SpacyEnv) (text : List Char) :
    Option (List (List Char)) :=
  let found := skillsFound env text
  if found.isEmpty then none else some ((env.setList found).take 10)

/-- Keywords excluding an ORG entity from the companies list. -/
def uniKeywords : List (List Char) :=
  ["university".toList, "college".toList, "school".toList,
   "institute".toList]

/-- The companies list of _extract_experience_with_spacy before the cap:
ORG entities not containing a university-like keyword, in order. -/
def companiesCollect (orgs : List (List Char)) : List (List Char) :=
  orgs.filter (fun o => !Py.containsAny uniKeywords (Py.lower o))

/-- Job title keywords of _extract_experience_with_spacy. -/
def jobTitleKeywords : List (List Char) :=
  ["engineer".toList, "developer".toList, "manager".toList,
   "analyst".toList, "consultant".toList, "specialist".toList,
   "coordinator".toList, "director".toList, "lead".toList,
   "senior".toList, "junior".toList, "intern".toList,
   "associate".toList, "architect".toList, "designer".toList]

/-- The positions loop of _extract_experience_with_spacy: append each
sentence containing a job title keyword, stripped, and break as soon as
three have been collected. -/
def positionsGo : List (List Char) → Nat → List (List Char)
  | [], _ => []
  | sent :: rest, n =>
    if Py.containsAny jobTitleKeywords (Py.lower sent) then
      if 3 ≤ n + 1 then [Py.strip sent]
      else Py.strip sent :: positionsGo rest (n + 1)
    else positionsGo rest n

/-- The positions list collected before the cap. -/
def positionsCollect (sents : List (List Char)) : List (List Char) :=
  positionsGo sents 0

/-- The experience structure of _extract_experience_with_spacy. -/
structure FpExperience where
  companies : Option (List (List Char))
  positions : Option (List (List Char))

/-- FixedResumeParser._extract_experience_with_spacy: companies capped at
5, positions capped at 3, each None when empty. -/
def extractExperienceSpacy (orgs sents : List (List Char)) : FpExperience :=
  let companies := companiesCollect orgs
  let positions := positionsCollect sents
  { companies :=
      if companies.isEmpty then none else some (companies.take 5),
    positions :=
      if positions.isEmpty then none else some (positions.take 3) }

end FP

example : FP.pyTitle "node.js".toList = "Node.Js".toList := by decide
example : FP.pyTitle "machine learning".toList =
  "Machine Learning".toList := by decide
example : FP.isUpperStr "JOHN SMITH".toList = true := by decide
example : FP.isTitleStr "John Smith".toList = true := by decide
example : FP.isTitleStr "JOHN SMITH".toList = false := by decide
example : FP.tier1LineResult "JOHN SMITH".toList =
  some "JOHN SMITH".toList := by decide
example : FP.tier1LineResult "Phone: 555".toList = none := by decide

namespace FP

/-- Character class [\s\+] of the total-experience pattern: whitespace or
the plus sign. -/
def teSepChar (c : Char) : Bool :=
  Py.isSpaceChar c || c = '+'

/-- The keywords of the total-experience heuristic, in iteration order. -/
def teKeywords : List (List Char) :=
  ["years".toList, "year".toList, "experience".toList]

/-- One attempt of the pattern (d+)[\s\+]*kw at the start of s: the digit
run is maximal (a shorter run would be followed by a digit, which is
neither a separator nor the first keyword character, so re backtracking
cannot help), the separator run is maximal for the same reason, and the
keyword must follow literally.  Returns the captured digit group and the
total matched length. -/
def tryKwMatch (kw : List Char) (s : List Char) :
    Option (List Char × Nat) :=
  let d := s.takeWhile Py.isDigitChar
  if d.isEmpty then none
  else
    let after := s.dropWhile Py.isDigitChar
    let sep := after.takeWhile teSepChar
    let rest2 := after.dropWhile teSepChar
    if List.isPrefixOf kw rest2 then
      some (d, d.length + sep.length + kw.length)
    else none

/-- re.findall scanning worker: try the pattern at each position from left
to right; on success record the capture and continue after the match end
(matches do not overlap); the fuel argument starts at the text length and
dominates every recursive call. -/
def findallKwGo (kw : List Char) : Nat → List Char → List (List Char)
  | 0, _ => []
  | _, [] => []
  | fuel + 1, c :: rest =>
    match tryKwMatch kw (c :: rest) with
    | some (cap, len) => cap :: findallKwGo kw fuel (rest.drop (len - 1))
    | none => findallKwGo kw fuel rest

/-- re.findall of (d+)[\s\+]*kw: all captured digit groups in order. -/
def findallKw (kw s : List Char) : List (List Char) :=
  findallKwGo kw s.length s

/-- The exp_matches pool of get_extracted_data: captures of all three
keywords over the lowercased text, pooled in keyword order. -/
def totalCaptures (text : List Char) : List (List Char) :=
  (teKeywords.map (fun kw => findallKw kw (Py.lower text))).flatten

/-- Python string comparison (less-than): lexicographic by code point. -/
def strLt : List Char → List Char → Bool
  | [], [] => false
  | [], _ :: _ => true
  | _ :: _, [] => false
  | a :: as, b :: bs =>
    if a < b then true else if b < a then false else strLt as bs

/-- Python max over a non-empty list of strings: fold keeping the current
maximum, replacing it only on strictly greater elements (ties keep the
earlier element).  The empty case is unreachable in the source (guarded by
if exp_matches). -/
def pyMaxStr : List (List Char) → List Char
  | [] => []
  | x :: xs => xs.foldl (fun acc y => if strLt acc y then y else acc) x

/-- The total_experience field of get_extracted_data: present exactly when
the pool is non-empty, formatted from Python max of the captured digit
strings. -/
def totalExperience (text : List Char) : Option (List Char) :=
  let caps := totalCaptures text
  if caps.isEmpty then none
  else some (pyMaxStr caps ++ "+ years".toList)

/-- The record built by FixedResumeParser.get_extracted_data on extracted
text, before the convenience fields are considered: since the experience
dict always has its two keys, Python finds it truthy and the convenience
fields company_names and designation always mirror it. -/
structure SpacyRecord where
  name : Option (List Char)
  email : Option (List Char)
  mobile_number : Option (List Char)
  skills : Option (List (List Char))
  education : Option (List (List Char))
  experience : FpExperience
  company_names : Option (List (List Char))
  designation : Option (List (List Char))
  total_experience : Option (List Char)
  no_of_pages : Nat

/-- Assembly of the extracted_data dict of get_extracted_data from the
extracted text and the external inputs. -/
def buildRecord (env : SpacyEnv) (text : List Char) : SpacyRecord :=
  let experience := extractExperienceSpacy env.orgEnts env.sents
  { name := extractNameSpacy env.persons text,
    email := extractEmailSpacy env.emailMatch text,
    mobile_number := extractPhoneSpacy env.phoneMatch text,
    skills := extractSkillsSpacy env text,
    education :=
      extractEducationSpacy env.setList env.orgEnts env.degreeMatches,
    experience := experience,
    company_names := experience.companies,
    designation := experience.positions,
    total_experience := totalExperience text,
    no_of_pages := text.length / 3000 + 1 }

/-- FixedResumeParser.get_extracted_data as a function of the text
extraction outcome: the whole body runs in a try/except that catches any
exception and returns None, so a failed extraction yields None, empty or
whitespace-only text yields None, and otherwise the record is built and
returned. -/
def get_extracted_data (env : SpacyEnv)
    (tout : Except (List Char) (List Char)) : Option SpacyRecord :=
  match tout with
  | .error _ => none
  | .ok t => if (Py.strip t).isEmpty then none else some (buildRecord env t)

end FP

namespace RP

/-- The record built by RegexResumeParser.extract_resume_data. -/
structure RegexRecord where
  name : Option (List Char)
  email : Option (List Char)
  mobile_number : Option (List Char)
  skills : Option (List (List Char))
  education : Option (List (List Char))
  experience : Option (List (List Char))
  no_of_pages : Nat

/-- RegexResumeParser.extract_resume_data as a function of the text
extraction outcome: a failed extraction or empty text raises (wrapped with
the Error extracting resume data prefix), otherwise the record is built
and returned; the field extractors themselves cannot raise. -/
def extract_resume_data (tout : Except (List Char) (List Char)) :
    Except (List Char) RegexRecord :=
  match tout with
  | .error m => .error ("Error extracting resume data: ".toList ++ m)
  | .ok t =>
    if (Py.strip t).isEmpty then
      .error
        "Error extracting resume data: No text content found in the file".toList
    else
      .ok { name := extract_name t,
            email := extract_email t,
            mobile_number := extract_phone t,
            skills := extract_skills t,
            education := extract_education t,
            experience := extract_experience t,
            no_of_pages := t.length / 3000 + 1 }

end RP

/-- A per-pipeline value in the JSON object returned by POST /api/upload:
the pipeline's record, an error object, or JSON null. -/
inductive PipelineJson (α : Type) where
  | record (r : α)
  | errObj (msg : List Char)
  | null
deriving DecidableEq

namespace Web

/-- The regex_parser entry built by api_upload in web_app.py: the
try/except around extract_resume_data turns any raised exception into an
error object; a returned record is serialized as is. -/
def apiRegexValue (tout : Except (List Char) (List Char)) :
    PipelineJson RP.RegexRecord :=
  match RP.extract_resume_data tout with
  | .ok r => .record r
  | .error m => .errObj m

/-- The spacy_parser entry built by api_upload: the try/except covers the
FixedResumeParser constructor and the call to get_extracted_data; the
constructor may raise (turned into an error object), but
get_extracted_data catches its own exceptions and returns None on internal
failure, which api_upload serializes as JSON null. -/
def apiSpacyValue (ctor : Except (List Char) Unit) (env : SpacyEnv)
    (tout : Except (List Char) (List Char)) :
    PipelineJson FP.SpacyRecord :=
  match ctor with
  | .error m => .errObj m
  | .ok _ =>
    match FP.get_extracted_data env tout with
    | none => .null
    | some r => .record r

end Web

/-- A concrete environment of external inputs used to instantiate
theorems: no entities, no matcher hits, and the identity set listing. -/
def trivEnv : SpacyEnv :=
  { persons := [], emailMatch := none, phoneMatch := none, orgEnts := [],
    degreeMatches := [], skillMatches := [], prodOrgEnts := [],
    sents := [], setList := fun l => l }

/-- The regex-pipeline name loop returns the stripped line as soon as a
line qualifies. -/
theorem nameScan_cons_pos (l : List Char) (ls : List (List Char))
    (h : RP.nameLineOk l = true) :
    RP.nameScan (l :: ls) = some (Py.strip l) := by
  simp [RP.nameScan, h]

/-- The tier-1 name loop returns as soon as a line is accepted. -/
theorem tier1Scan_cons_some (l : List Char) (ls : List (List Char))
    (n : List Char) (h : FP.tier1LineResult l = some n) :
    FP.tier1Scan (l :: ls) = some n := by
  simp [FP.tier1Scan, h]

/-- C9: on every text whose first line is JOHN SMITH, the regex pipeline
name extractor and tier 1 of the entity pipeline name extractor (first-8-
lines scan) both return exactly JOHN SMITH, whatever the rest of the text
and whatever the entity recognizer would report. -/
theorem claim_C9 (text : List Char) (persons : List (List Char × Nat))
    (h : (Py.splitLines text).head? = some "JOHN SMITH".toList) :
    RP.extract_name text = some "JOHN SMITH".toList ∧
    FP.extractNameSpacy persons text = some "JOHN SMITH".toList := by
  obtain ⟨rest, hrest⟩ :
      ∃ rest, Py.splitLines text = "JOHN SMITH".toList :: rest := by
    cases hs : Py.splitLines text with
    | nil => rw [hs] at h; simp at h
    | cons a as =>
      have ha : a = "JOHN SMITH".toList := by
        have he : (a :: as).head? = some a := rfl
        rw [hs, he] at h
        exact Option.some.inj h
      exact ⟨as, by rw [ha]⟩
  constructor
  · rw [RP.extract_name, hrest]
    rw [show ("JOHN SMITH".toList :: rest).take 5 =
      "JOHN SMITH".toList :: rest.take 4 from rfl]
    rw [nameScan_cons_pos _ _ (by decide)]
    decide
  · rw [FP.extractNameSpacy, hrest]
    rw [show ("JOHN SMITH".toList :: rest).take 8 =
      "JOHN SMITH".toList :: rest.take 7 from rfl]
    rw [tier1Scan_cons_some "JOHN SMITH".toList (rest.take 7)
      "JOHN SMITH".toList (by decide)]

/-- Witness for C9 on a concrete resume text starting with JOHN SMITH. -/
theorem claim_C9_witness :
    RP.extract_name "JOHN SMITH\njohn@x.com".toList =
      some "JOHN SMITH".toList ∧
    FP.extractNameSpacy [] "JOHN SMITH\njohn@x.com".toList =
      some "JOHN SMITH".toList :=
  claim_C9 "JOHN SMITH\njohn@x.com".toList [] (by decide)

/-- Counterexample to C2: when the constructor succeeds and the extracted
text is empty, get_extracted_data catches the failure internally and
returns None, which api_upload serializes under spacy_parser as JSON null,
not as a record and not as an error object — exactly the scenario the
claim says cannot produce null. -/
theorem claim_C2_counterexample :
    Web.apiSpacyValue (Except.ok ()) trivEnv (Except.ok []) =
      PipelineJson.null := rfl

/-- C2 amended: the regex_parser entry is never null (extract_resume_data
raises on failure and api_upload turns the exception into an error
object), but the spacy_parser entry is null exactly when the constructor
succeeds and get_extracted_data fails internally (failed extraction or
empty text), because get_extracted_data catches its own exceptions and
returns None, which api_upload passes through to the JSON. -/
theorem claim_C2_amended (tout : Except (List Char) (List Char))
    (ctor : Except (List Char) Unit) (env : SpacyEnv) :
    Web.apiRegexValue tout ≠ PipelineJson.null ∧
    (Web.apiSpacyValue ctor env tout = PipelineJson.null ↔
      ctor = Except.ok () ∧ FP.get_extracted_data env tout = none) := by
  constructor
  · cases h : RP.extract_resume_data tout <;>
      simp [Web.apiRegexValue, h]
  · cases ctor with
    | error m => simp [Web.apiSpacyValue]
    | ok u =>
      cases u
      cases h : FP.get_extracted_data env tout <;>
        simp [Web.apiSpacyValue, h]

/-- C6: every list-valued field respects its declared cap — regex
pipeline: skills at most 5, education at most 3, experience at most 5;
entity pipeline: skills at most 10, companies at most 5, positions at most
3 — and each capped field equals the take of its collected sequence (a
truncation keeping an initial segment, not a sample).  For the entity
skills field the collected sequence is the deduplicated listing
list(set(found_skills)) that the source truncates; the hypothesis states
the one property of Python set listing this needs: listing an empty
collection gives an empty listing. -/
theorem claim_C6 (text : List Char) (env : SpacyEnv)
    (hset : env.setList [] = []) :
    ((RP.extract_skills text).getD []).length ≤ 5 ∧
    (RP.extract_skills text).getD [] = (RP.skillsCollect text).take 5 ∧
    ((RP.extract_education text).getD []).length ≤ 3 ∧
    (RP.extract_education text).getD [] = (RP.eduCollect text).take 3 ∧
    ((RP.extract_experience text).getD []).length ≤ 5 ∧
    (RP.extract_experience text).getD [] = (RP.expCollect text).take 5 ∧
    ((FP.extractSkillsSpacy env text).getD []).length ≤ 10 ∧
    (FP.extractSkillsSpacy env text).getD [] =
      (env.setList (FP.skillsFound env text)).take 10 ∧
    (((FP.extractExperienceSpacy env.orgEnts env.sents).companies).getD
      []).length ≤ 5 ∧
    ((FP.extractExperienceSpacy env.orgEnts env.sents).companies).getD []
      = (FP.companiesCollect env.orgEnts).take 5 ∧
    (((FP.extractExperienceSpacy env.orgEnts env.sents).positions).getD
      []).length ≤ 3 ∧
    ((FP.extractExperienceSpacy env.orgEnts env.sents).positions).getD []
      = (FP.positionsCollect env.sents).take 3 := by
  refine ⟨?_, ?_, ?_, ?_, ?_, ?_, ?_, ?_, ?_, ?_, ?_, ?_⟩
  · cases h : (RP.skillsCollect text).isEmpty <;>
      simp [RP.extract_skills, h, List.length_take]
  · cases h : (RP.skillsCollect text).isEmpty <;>
      simp_all [RP.extract_skills, List.isEmpty_eq_true]
  · cases h : (RP.eduCollect text).isEmpty <;>
      simp [RP.extract_education, h, List.length_take]
  · cases h : (RP.eduCollect text).isEmpty <;>
      simp_all [RP.extract_education, List.isEmpty_eq_true]
  · cases h : (RP.expCollect text).isEmpty <;>
      simp [RP.extract_experience, h, List.length_take]
  · cases h : (RP.expCollect text).isEmpty <;>
      simp_all [RP.extract_experience, List.isEmpty_eq_true]
  · cases h : (FP.skillsFound env text).isEmpty <;>
      simp [FP.extractSkillsSpacy, h, List.length_take]
  · cases h : (FP.skillsFound env text).isEmpty <;>
      simp_all [FP.extractSkillsSpacy, List.isEmpty_eq_true, hset]
  · cases h : (FP.companiesCollect env.orgEnts).isEmpty <;>
      simp [FP.extractExperienceSpacy, h, List.length_take]
  · cases h : (FP.companiesCollect env.orgEnts).isEmpty <;>
      simp_all [FP.extractExperienceSpacy, List.isEmpty_eq_true]
  · cases h : (FP.positionsCollect env.sents).isEmpty <;>
      simp [FP.extractExperienceSpacy, h, List.length_take]
  · cases h : (FP.positionsCollect env.sents).isEmpty <;>
      simp_all [FP.extractExperienceSpacy, List.isEmpty_eq_true]

/-- Witness for C6 at a concrete text and a concrete environment. -/
theorem claim_C6_witness :
    ((RP.extract_skills [] ).getD []).length ≤ 5 ∧
    (RP.extract_skills []).getD [] = (RP.skillsCollect []).take 5 ∧
    ((RP.extract_education []).getD []).length ≤ 3 ∧
    (RP.extract_education []).getD [] = (RP.eduCollect []).take 3 ∧
    ((RP.extract_experience []).getD []).length ≤ 5 ∧
    (RP.extract_experience []).getD [] = (RP.expCollect []).take 5 ∧
    ((FP.extractSkillsSpacy trivEnv []).getD []).length ≤ 10 ∧
    (FP.extractSkillsSpacy trivEnv []).getD [] =
      (trivEnv.setList (FP.skillsFound trivEnv [])).take 10 ∧
    (((FP.extractExperienceSpacy trivEnv.orgEnts
      trivEnv.sents).companies).getD []).length ≤ 5 ∧
    ((FP.extractExperienceSpacy trivEnv.orgEnts
      trivEnv.sents).companies).getD []
      = (FP.companiesCollect trivEnv.orgEnts).take 5 ∧
    (((FP.extractExperienceSpacy trivEnv.orgEnts
      trivEnv.sents).positions).getD []).length ≤ 3 ∧
    ((FP.extractExperienceSpacy trivEnv.orgEnts
      trivEnv.sents).positions).getD []
      = (FP.positionsCollect trivEnv.sents).take 3 :=
  claim_C6 [] trivEnv rfl

/-- Numeric value of a captured digit string (the claim's reading of a
capture). -/
def digitsToNat (l : List Char) : Nat :=
  l.foldl (fun a c => a * 10 + (c.toNat - 48)) 0

/-- Claim-side total experience, following the claim's words: the same
pool of captured digit groups, but reporting the maximum NUMERIC value,
formatted in decimal. -/
def specTotalExperience (text : List Char) : Option (List Char) :=
  let caps := FP.totalCaptures text
  if caps.isEmpty then none
  else
    some ((Nat.repr ((caps.map digitsToNat).foldl max 0)).toList ++
      "+ years".toList)

/-- Counterexample to C1: on the text 9 years and 10 years the pool of
captures is [9, 10, 9, 10]; the claim demands the maximum numeric value,
10+ years, but the code computes Python max over a list of strings, which
compares lexicographically, so it returns 9+ years. -/
theorem claim_C1_counterexample :
    FP.totalExperience "9 years and 10 years".toList =
      some "9+ years".toList ∧
    specTotalExperience "9 years and 10 years".toList =
      some "10+ years".toList ∧
    ("9+ years".toList : List Char) ≠ "10+ years".toList := by
  refine ⟨by decide, by decide, by decide⟩

/-- Python string less-than is irreflexive. -/
theorem strLt_irrefl (a : List Char) : FP.strLt a a = false := by
  induction a with
  | nil => rfl
  | cons c as ih => simp [FP.strLt, ih]

/-- Unfolding Python string less-than on two non-empty strings. -/
theorem strLt_cons_iff (x y : Char) (as bs : List Char) :
    FP.strLt (x :: as) (y :: bs) = true ↔
      x < y ∨ (x = y ∧ FP.strLt as bs = true) := by
  simp only [FP.strLt]
  split_ifs with h1 h2
  · simp [h1]
  · constructor
    · intro h
      exact absurd h (by simp)
    · rintro (h | ⟨he, -⟩)
      · exact absurd h h1
      · subst he
        exact absurd h2 (lt_irrefl x)
  · have hxy : x = y := le_antisymm (not_lt.mp h2) (not_lt.mp h1)
    constructor
    · intro h
      exact Or.inr ⟨hxy, h⟩
    · rintro (h | ⟨-, h⟩)
      · exact absurd h h1
      · exact h

/-- Python string less-than is transitive. -/
theorem strLt_trans :
    ∀ a b c : List Char, FP.strLt a b = true → FP.strLt b c = true →
      FP.strLt a c = true := by
  intro a
  induction a with
  | nil =>
    intro b c hab hbc
    cases b with
    | nil => exact absurd hab (by simp [FP.strLt])
    | cons y bs =>
      cases c with
      | nil => exact absurd hbc (by simp [FP.strLt])
      | cons z cs => simp [FP.strLt]
  | cons x as ih =>
    intro b c hab hbc
    cases b with
    | nil => exact absurd hab (by simp [FP.strLt])
    | cons y bs =>
      cases c with
      | nil => exact absurd hbc (by simp [FP.strLt])
      | cons z cs =>
        rw [strLt_cons_iff] at hab hbc ⊢
        rcases hab with h1 | ⟨h1, hr1⟩
        · rcases hbc with h2 | ⟨h2, -⟩
          · exact Or.inl (lt_trans h1 h2)
          · exact Or.inl (h2 ▸ h1)
        · rcases hbc with h2 | ⟨h2, hr2⟩
          · exact Or.inl (h1 ▸ h2)
          · exact Or.inr ⟨h1.trans h2, ih bs cs hr1 hr2⟩

/-- Python string comparison is connected: when a is not less than b,
either b is less than a or they are equal. -/
theorem strLt_connex :
    ∀ a b : List Char, FP.strLt a b = false →
      FP.strLt b a = true ∨ a = b := by
  intro a
  induction a with
  | nil =>
    intro b h
    cases b with
    | nil => exact Or.inr rfl
    | cons y bs => exact absurd h (by simp [FP.strLt])
  | cons x as ih =>
    intro b h
    cases b with
    | nil => exact Or.inl (by simp [FP.strLt])
    | cons y bs =>
      rcases lt_trichotomy x y with h1 | h1 | h1
      · exact absurd ((strLt_cons_iff x y as bs).mpr (Or.inl h1))
          (by simp [h])
      · have has : FP.strLt as bs = false := by
          by_contra hc
          rw [Bool.not_eq_false] at hc
          exact absurd ((strLt_cons_iff x y as bs).mpr
            (Or.inr ⟨h1, hc⟩)) (by simp [h])
        rcases ih bs has with h2 | h2
        · exact Or.inl ((strLt_cons_iff y x bs as).mpr
            (Or.inr ⟨h1.symm, h2⟩))
        · exact Or.inr (by rw [h1, h2])
      · exact Or.inl ((strLt_cons_iff y x bs as).mpr (Or.inl h1))

/-- Helper fact: not-less-than is preserved through the Python max fold
step (if the accumulator is at least every comparand so far, so is the
updated accumulator). -/
theorem strLt_not_of_not_not (r a y : List Char)
    (hra : FP.strLt r a = false) (hay : FP.strLt a y = false) :
    FP.strLt r y = false := by
  by_contra hc
  rw [Bool.not_eq_false] at hc
  rcases strLt_connex a y hay with h1 | h1
  · rcases strLt_connex r a hra with h2 | h2
    · exact absurd (strLt_trans _ _ _ (strLt_trans _ _ _ h1 h2) hc)
        (by simp [strLt_irrefl])
    · subst h2
      exact absurd (strLt_trans _ _ _ h1 hc) (by simp [strLt_irrefl])
  · subst h1
    rcases strLt_connex r a hra with h2 | h2
    · exact absurd (strLt_trans _ _ _ h2 hc) (by simp [strLt_irrefl])
    · subst h2
      exact absurd hc (by simp [strLt_irrefl])

/-- The Python max fold returns the accumulator or a list element. -/
theorem foldl_max_mem (xs : List (List Char)) :
    ∀ acc, xs.foldl (fun a y => if FP.strLt a y then y else a) acc = acc ∨
      xs.foldl (fun a y => if FP.strLt a y then y else a) acc ∈ xs := by
  induction xs with
  | nil => intro acc; exact Or.inl rfl
  | cons y ys ih =>
    intro acc
    rw [List.foldl_cons]
    rcases ih (if FP.strLt acc y then y else acc) with h | h
    · rw [h]
      by_cases hl : FP.strLt acc y = true
      · rw [if_pos hl]
        exact Or.inr (by simp)
      · rw [if_neg hl]
        exact Or.inl rfl
    · exact Or.inr (List.mem_cons_of_mem _ h)

/-- The Python max fold result is not less than the accumulator or any
list element. -/
theorem foldl_max_ge (xs : List (List Char)) :
    ∀ acc c', c' ∈ acc :: xs →
      FP.strLt (xs.foldl (fun a y => if FP.strLt a y then y else a) acc)
        c' = false := by
  induction xs with
  | nil =>
    intro acc c' hc
    simp at hc
    subst hc
    exact strLt_irrefl _
  | cons y ys ih =>
    intro acc c' hc
    rw [List.foldl_cons]
    have hacc : FP.strLt (if FP.strLt acc y then y else acc) acc = false := by
      by_cases hl : FP.strLt acc y = true
      · rw [if_pos hl]
        by_contra hcon
        rw [Bool.not_eq_false] at hcon
        exact absurd (strLt_trans _ _ _ hl hcon)
          (by simp [strLt_irrefl])
      · rw [if_neg hl]
        exact strLt_irrefl _
    have hy : FP.strLt (if FP.strLt acc y then y else acc) y = false := by
      by_cases hl : FP.strLt acc y = true
      · rw [if_pos hl]
        exact strLt_irrefl _
      · rw [if_neg hl]
        rw [Bool.not_eq_true] at hl
        exact hl
    have hres := ih (if FP.strLt acc y then y else acc)
    rcases List.mem_cons.mp hc with h | h
    · subst h
      exact strLt_not_of_not_not _ _ _ (hres _ (by simp)) hacc
    · rcases List.mem_cons.mp h with h2 | h2
      · subst h2
        exact strLt_not_of_not_not _ _ _ (hres _ (by simp)) hy
      · exact hres c' (by simp [h2])

/-- A list is a leading substring of itself extended by anything. -/
theorem isPrefixOf_append_self (kw t : List Char) :
    List.isPrefixOf kw (kw ++ t) = true := by
  rw [List.isPrefixOf_iff_prefix]
  exact ⟨t, rfl⟩

/-- The separator class of the total-experience pattern contains no
digits. -/
theorem teSep_not_digit (c : Char) (h : FP.teSepChar c = true) :
    Py.isDigitChar c = false := by
  simp [FP.teSepChar, Py.isSpaceChar] at h
  rcases h with ⟨h | h | h | h | h, h6⟩ | h <;> subst_vars <;> decide

/-- takeWhile and dropWhile on a block of satisfying elements followed by
a region whose head fails the predicate. -/
theorem takeWhile_dropWhile_decomp {p : Char → Bool} (L R : List Char)
    (hL : ∀ x ∈ L, p x = true)
    (hR : ∀ c, R.head? = some c → p c = false) :
    (L ++ R).takeWhile p = L ∧ (L ++ R).dropWhile p = R := by
  have hTake : (L ++ R).takeWhile p = L := by
    cases R with
    | nil =>
      rw [List.append_nil]
      induction L with
      | nil => rfl
      | cons a L ihL =>
        rw [List.takeWhile_cons, if_pos (hL a (by simp))]
        rw [ihL fun x hx => hL x (by simp [hx])]
    | cons r rs =>
      exact takeWhile_all_append p L r rs hL (hR r rfl)
  refine ⟨hTake, ?_⟩
  have hid := List.takeWhile_append_dropWhile p (L ++ R)
  rw [hTake] at hid
  exact List.append_cancel_left hid

/-- The total-experience pattern matches at the start of a region
decomposed as digits, separators and the keyword, capturing exactly the
digit block. -/
theorem tryKwMatch_decomp (kw d sep tail : List Char)
    (hd : d ≠ []) (hdall : d.all Py.isDigitChar = true)
    (hsall : sep.all FP.teSepChar = true)
    (hkw : kw ≠ [])
    (hkh : ∀ c, kw.head? = some c →
      Py.isDigitChar c = false ∧ FP.teSepChar c = false) :
    FP.tryKwMatch kw (d ++ (sep ++ (kw ++ tail))) =
      some (d, d.length + sep.length + kw.length) := by
  have hR1 : ∀ c, (sep ++ (kw ++ tail)).head? = some c →
      Py.isDigitChar c = false := by
    intro c hc
    cases sep with
    | cons s ss =>
      have : c = s := by simpa using hc.symm
      subst this
      exact teSep_not_digit c (List.all_eq_true.mp hsall c (by simp))
    | nil =>
      cases kw with
      | nil => exact absurd rfl hkw
      | cons k ks =>
        have : c = k := by simpa using hc.symm
        subst this
        exact (hkh c rfl).1
  have hR2 : ∀ c, (kw ++ tail).head? = some c → FP.teSepChar c = false := by
    intro c hc
    cases kw with
    | nil => exact absurd rfl hkw
    | cons k ks =>
      have : c = k := by simpa using hc.symm
      subst this
      exact (hkh c rfl).2
  have h1 := takeWhile_dropWhile_decomp d (sep ++ (kw ++ tail))
    (List.all_eq_true.mp hdall) hR1
  have h2 := takeWhile_dropWhile_decomp sep (kw ++ tail)
    (List.all_eq_true.mp hsall) hR2
  rw [FP.tryKwMatch]
  simp only [h1.1, h1.2, h2.1, h2.2]
  rw [if_neg (by simp [hd]), if_pos (isPrefixOf_append_self kw tail)]

/-- Any capture produced by the scanner comes with a pattern witness
inside the scanned region. -/
theorem findallKwGo_ne_nil (kw : List Char) :
    ∀ (fuel : Nat) (s : List Char), FP.findallKwGo kw fuel s ≠ [] →
      ∃ d sep : List Char, d ≠ [] ∧ d.all Py.isDigitChar = true ∧
        sep.all FP.teSepChar = true ∧ (d ++ (sep ++ kw)) <:+: s := by
  intro fuel
  induction fuel with
  | zero =>
    intro s h
    simp [FP.findallKwGo] at h
  | succ fuel ih =>
    intro s h
    cases s with
    | nil => simp [FP.findallKwGo] at h
    | cons c rest =>
      cases hm : FP.tryKwMatch kw (c :: rest) with
      | none =>
        have h' : FP.findallKwGo kw fuel rest ≠ [] := by
          simpa [FP.findallKwGo, hm] using h
        obtain ⟨d, sep, h1, h2, h3, h4⟩ := ih rest h'
        exact ⟨d, sep, h1, h2, h3, List.infix_cons h4⟩
      | some pr =>
        simp only [FP.tryKwMatch] at hm
        split_ifs at hm with hemp hpre
        · obtain ⟨t, ht⟩ := (List.isPrefixOf_iff_prefix.mp hpre)
          refine ⟨(c :: rest).takeWhile Py.isDigitChar,
            ((c :: rest).dropWhile Py.isDigitChar).takeWhile FP.teSepChar,
            by simpa using hemp, ?_, ?_, [], t, ?_⟩
          · rw [List.all_eq_true]
            intro x hx
            exact List.mem_takeWhile_imp hx
          · rw [List.all_eq_true]
            intro x hx
            exact List.mem_takeWhile_imp hx
          · rw [List.nil_append, List.append_assoc, List.append_assoc, ht]
            rw [List.takeWhile_append_dropWhile, List.takeWhile_append_dropWhile]

/-- If the pattern occurs anywhere in the region (digits, then separators,
then the keyword), the scanner produces at least one capture.  The keyword
must be non-empty and start with a character that is neither a digit nor a
separator; the three keywords of the source satisfy this. -/
theorem findallKwGo_of_infix (kw : List Char)
    (hkw : kw ≠ [])
    (hkh : ∀ c, kw.head? = some c →
      Py.isDigitChar c = false ∧ FP.teSepChar c = false) :
    ∀ (fuel : Nat) (s : List Char), s.length ≤ fuel →
      ∀ (pre d sep tail : List Char),
        s = pre ++ (d ++ (sep ++ (kw ++ tail))) →
        d ≠ [] → d.all Py.isDigitChar = true →
        sep.all FP.teSepChar = true →
        FP.findallKwGo kw fuel s ≠ [] := by
  intro fuel
  induction fuel with
  | zero =>
    intro s hlen pre d sep tail hs hd _ _
    have hnil : s = [] := List.length_eq_zero.mp (Nat.le_zero.mp hlen)
    rw [hnil] at hs
    rcases (List.append_eq_nil.mp hs.symm) with ⟨-, h2⟩
    rcases (List.append_eq_nil.mp h2) with ⟨h3, -⟩
    exact absurd h3 hd
  | succ fuel ih =>
    intro s hlen pre d sep tail hs hd hdall hsall
    cases s with
    | nil =>
      rcases (List.append_eq_nil.mp hs.symm) with ⟨-, h2⟩
      rcases (List.append_eq_nil.mp h2) with ⟨h3, -⟩
      exact absurd h3 hd
    | cons c rest =>
      cases hm : FP.tryKwMatch kw (c :: rest) with
      | some pr => simp [FP.findallKwGo, hm]
      | none =>
        cases pre with
        | nil =>
          rw [List.nil_append] at hs
          rw [hs, tryKwMatch_decomp kw d sep tail hd hdall hsall hkw hkh]
            at hm
          exact absurd hm (by simp)
        | cons p ps =>
          have hrest : rest = ps ++ (d ++ (sep ++ (kw ++ tail))) := by
            rw [List.cons_append] at hs
            exact (List.cons.injEq c rest p _).mp hs |>.2
          have hlen' : rest.length ≤ fuel := by
            simp at hlen
            omega
          have h' := ih rest hlen' ps d sep tail hrest hd hdall hsall
          simpa [FP.findallKwGo, hm] using h'

/-- The three keywords of the total-experience heuristic are non-empty and
start with characters that are neither digits nor separators. -/
theorem teKw_ok : ∀ kw ∈ FP.teKeywords, kw ≠ [] ∧
    (∀ c, kw.head? = some c →
      Py.isDigitChar c = false ∧ FP.teSepChar c = false) := by
  intro kw hkw
  simp only [FP.teKeywords, List.mem_cons, List.not_mem_nil,
    or_false] at hkw
  rcases hkw with h | h | h <;> subst h
  · refine ⟨by decide, ?_⟩
    intro c hc
    have : c = 'y' := by simpa using hc.symm
    subst this
    exact ⟨by decide, by decide⟩
  · refine ⟨by decide, ?_⟩
    intro c hc
    have : c = 'y' := by simpa using hc.symm
    subst this
    exact ⟨by decide, by decide⟩
  · refine ⟨by decide, ?_⟩
    intro c hc
    have : c = 'e' := by simpa using hc.symm
    subst this
    exact ⟨by decide, by decide⟩

/-- C1 amended: the field total_experience is present if and only if the
pattern digits, optional whitespace-or-plus run, keyword occurs in the
lowercased text for one of the keywords years, year, experience; but its
value is the PYTHON max of the pooled digit strings, i.e. the
lexicographically greatest capture (the source calls max on a list of
strings), not the numerically greatest: the reported value is a capture c
from the pool, formatted c + years, such that no capture in the pool is
lexicographically greater than c. -/
theorem claim_C1_amended (text : List Char) :
    ((FP.totalExperience text).isSome = true ↔
      ∃ kw ∈ FP.teKeywords, ∃ d sep : List Char,
        d ≠ [] ∧ d.all Py.isDigitChar = true ∧
        sep.all FP.teSepChar = true ∧
        (d ++ (sep ++ kw)) <:+: Py.lower text) ∧
    (∀ s, FP.totalExperience text = some s →
      ∃ c ∈ FP.totalCaptures text,
        s = c ++ "+ years".toList ∧
        ∀ c' ∈ FP.totalCaptures text, FP.strLt c c' = false) := by
  have hiff : FP.totalCaptures text ≠ [] ↔
      ∃ kw ∈ FP.teKeywords, ∃ d sep : List Char,
        d ≠ [] ∧ d.all Py.isDigitChar = true ∧
        sep.all FP.teSepChar = true ∧
        (d ++ (sep ++ kw)) <:+: Py.lower text := by
    rw [FP.totalCaptures, Ne, List.flatten_eq_nil_iff]
    push_neg
    constructor
    · rintro ⟨l, hl, hlne⟩
      rw [List.mem_map] at hl
      obtain ⟨kw, hkwmem, rfl⟩ := hl
      rw [FP.findallKw] at hlne
      obtain ⟨d, sep, h1, h2, h3, h4⟩ := findallKwGo_ne_nil kw _ _ hlne
      exact ⟨kw, hkwmem, d, sep, h1, h2, h3, h4⟩
    · rintro ⟨kw, hkwmem, d, sep, h1, h2, h3, u, v, huv⟩
      refine ⟨FP.findallKw kw (Py.lower text),
        List.mem_map_of_mem _ hkwmem, ?_⟩
      obtain ⟨hkw, hkh⟩ := teKw_ok kw hkwmem
      rw [FP.findallKw]
      refine findallKwGo_of_infix kw hkw hkh _ _ (le_refl _) u d sep v
        ?_ h1 h2 h3
      rw [← huv]
      simp [List.append_assoc]
  constructor
  · by_cases h : (FP.totalCaptures text).isEmpty = true
    · have hnil := List.isEmpty_eq_true.mp h
      simp only [FP.totalExperience, h, if_pos, Option.isSome_none]
      constructor
      · intro hc
        exact absurd hc (by simp)
      · intro hex
        exact absurd hnil (hiff.mpr hex)
    · simp only [FP.totalExperience, h]
      rw [if_neg (by simp [h])]
      simp only [Option.isSome_some, true_iff]
      exact hiff.mp (by simpa [Ne, List.isEmpty_eq_true] using h)
  · intro s hsome
    by_cases h : (FP.totalCaptures text).isEmpty = true
    · rw [FP.totalExperience, if_pos h] at hsome
      exact absurd hsome (by simp)
    · rw [FP.totalExperience, if_neg (by simp [h])] at hsome
      have hs := (Option.some.inj hsome).symm
      cases hcaps : FP.totalCaptures text with
      | nil => rw [hcaps] at h; simp at h
      | cons x xs =>
        rw [hcaps] at hs
        refine ⟨FP.pyMaxStr (x :: xs), ?_, ?_, ?_⟩
        · rw [FP.pyMaxStr]
          rcases foldl_max_mem xs x with hm | hm
          · rw [hm]; simp
          · exact List.mem_cons_of_mem _ hm
        · exact hs
        · intro c' hc'
          rw [FP.pyMaxStr]
          exact foldl_max_ge xs x c' hc'

/-- Witness for the amended C1 at the concrete text of the spec example:
the presence direction and the lexicographic-max value both hold on
5 years and 3+ years experience. -/
theorem claim_C1_amended_witness :
    ∃ c ∈ FP.totalCaptures "5 years and 3+ years experience".toList,
      "5+ years".toList = c ++ "+ years".toList ∧
      ∀ c' ∈ FP.totalCaptures "5 years and 3+ years experience".toList,
        FP.strLt c c' = false :=
  (claim_C1_amended "5 years and 3+ years experience".toList).2
    "5+ years".toList (by decide)
